import Mathlib

/-!
Shallow embedding of `src/easydb.py` (mcl0z/EazyDB): a SQLite-backed store
with a scalar key/value table (`kv_store`), a list table (`list_store`), an
attribute router (`__getattr__` / `__setattr__`), a list view (`EasyDBList`)
and a snapshot/report path (`_get_all_data` / `_generate_html_report`).

Values are serialized with Python's `json.dumps` (default options:
`ensure_ascii=True`, separators `', '` and `': '`) and read back with
`json.loads`.  Both are modelled here, character by character, over the
structurally JSON-representable values: null, bool, arbitrary-precision
int, string, array, object.  Floats (and the float-producing parts of the
number grammar) are outside the model: the parser reports failure where
Python would produce a float.
-/

namespace EasyDB

/-- A Python value as stored and returned by easydb.py: the
JSON-representable fragment. -/
inductive PyVal : Type where
  | null : PyVal
  | bool : Bool → PyVal
  | int : Int → PyVal
  | str : String → PyVal
  | list : List PyVal → PyVal
  | dict : List (String × PyVal) → PyVal

/-- One lowercase hexadecimal digit, as Python's `"%x"` formats it. -/
def hexDigit (n : Nat) : Char :=
  if n < 10 then Char.ofNat (48 + n) else Char.ofNat (87 + n)

/-- Four lowercase hex digits, the body of Python's `"\\u%04x"` escape. -/
def hex4 (n : Nat) : List Char :=
  [hexDigit (n / 4096 % 16), hexDigit (n / 256 % 16), hexDigit (n / 16 % 16), hexDigit (n % 16)]

/-- How `json.dumps` (`ensure_ascii=True`) writes one character: printable
ASCII is literal, the two-character escapes follow `ESCAPE_DCT`, everything
else becomes `\\uXXXX` (a surrogate pair above `0xFFFF`). -/
def escapeChar (c : Char) : List Char :=
  if c = '"' then ['\\', '"']
  else if c = '\\' then ['\\', '\\']
  else if 32 ≤ c.toNat ∧ c.toNat ≤ 126 then [c]
  else if c.toNat = 8 then ['\\', 'b']
  else if c.toNat = 9 then ['\\', 't']
  else if c.toNat = 10 then ['\\', 'n']
  else if c.toNat = 12 then ['\\', 'f']
  else if c.toNat = 13 then ['\\', 'r']
  else if c.toNat < 65536 then '\\' :: 'u' :: hex4 c.toNat
  else ('\\' :: 'u' :: hex4 (55296 + (c.toNat - 65536) / 1024)) ++
       ('\\' :: 'u' :: hex4 (56320 + (c.toNat - 65536) % 1024))

/-- The escaped body of a JSON string literal. -/
def escapeString (cs : List Char) : List Char := (cs.map escapeChar).flatten

/-- Decimal digits, fuelled so that the definition is structurally recursive
(and hence evaluates inside the kernel). -/
def natDigitsAux : Nat → Nat → List Char
  | 0, _ => []
  | Nat.succ fuel, n =>
    if n < 10 then [Char.ofNat (48 + n)]
    else natDigitsAux fuel (n / 10) ++ [Char.ofNat (48 + n % 10)]

/-- Decimal digits of a natural number, most significant first, as Python's
`repr` writes it. -/
def natDigits (n : Nat) : List Char := natDigitsAux (n + 1) n

/-- Decimal representation of a Python int. -/
def intChars (k : Int) : List Char :=
  if k < 0 then '-' :: natDigits (- k).toNat else natDigits k.toNat

mutual

/-- The characters `json.dumps` produces for a value (default separators). -/
def printChars : PyVal → List Char
  | .null => 'n' :: 'u' :: 'l' :: ['l']
  | .bool true => 't' :: 'r' :: 'u' :: ['e']
  | .bool false => 'f' :: 'a' :: 'l' :: 's' :: ['e']
  | .int k => intChars k
  | .str s => '"' :: (escapeString s.data ++ ['"'])
  | .list xs => '[' :: (printItems xs ++ [']'])
  | .dict fs => '{' :: (printMembers fs ++ ['}'])

/-- Array elements joined by `", "`. -/
def printItems : List PyVal → List Char
  | [] => []
  | [x] => printChars x
  | x :: y :: xs => printChars x ++ ',' :: ' ' :: printItems (y :: xs)

/-- Object members, `"key": value` joined by `", "`. -/
def printMembers : List (String × PyVal) → List Char
  | [] => []
  | [(k, v)] => '"' :: (escapeString k.data ++ ['"']) ++ ':' :: ' ' :: printChars v
  | (k, v) :: f :: fs =>
      ('"' :: (escapeString k.data ++ ['"']) ++ ':' :: ' ' :: printChars v)
        ++ ',' :: ' ' :: printMembers (f :: fs)

end

/-- The `", "`-prefixed continuation of a printed member list. -/
def printMembersSep : List (String × PyVal) → List Char
  | [] => []
  | f :: fs => ',' :: ' ' :: printMembers (f :: fs)

/-- `json.dumps` with easydb.py's (default) options. -/
def dumps (v : PyVal) : String := String.mk (printChars v)

/-- JSON whitespace. -/
def isWsChar (c : Char) : Bool := c = ' ' ∨ c = Char.ofNat 9 ∨ c = Char.ofNat 10 ∨ c = Char.ofNat 13

/-- Skip leading JSON whitespace. -/
def skipWs : List Char → List Char
  | [] => []
  | c :: cs => if isWsChar c then skipWs cs else c :: cs

/-- Value of one escape character (the non-`\\u` escapes `json.loads`
accepts). -/
def escCode (e : Char) : Option Char :=
  if e = '"' then some '"'
  else if e = '\\' then some '\\'
  else if e = '/' then some '/'
  else if e = 'b' then some (Char.ofNat 8)
  else if e = 'f' then some (Char.ofNat 12)
  else if e = 'n' then some (Char.ofNat 10)
  else if e = 'r' then some (Char.ofNat 13)
  else if e = 't' then some (Char.ofNat 9)
  else none

/-- Value of one hex digit, either case. -/
def hexVal (c : Char) : Option Nat :=
  if 48 ≤ c.toNat ∧ c.toNat ≤ 57 then some (c.toNat - 48)
  else if 97 ≤ c.toNat ∧ c.toNat ≤ 102 then some (c.toNat - 87)
  else if 65 ≤ c.toNat ∧ c.toNat ≤ 70 then some (c.toNat - 55)
  else none

/-- Value of a four-hex-digit group. -/
def hexQuad (a b c d : Char) : Option Nat :=
  match hexVal a, hexVal b, hexVal c, hexVal d with
  | some x, some y, some z, some w => some (4096 * x + 256 * y + 16 * z + w)
  | _, _, _, _ => none

/-- Decode a `\\u` escape whose four hex digits gave `n`: a non-surrogate
scalar stands alone; a high surrogate must combine with a following
`\\uXXXX` low surrogate.  A lone surrogate is kept by Python but has no
Lean `Char`, so it decodes to `none` (it never arises from `dumps` of a
representable value). -/
def decodeUEscape (n : Nat) (rest : List Char) : Option (Char × List Char) :=
  if n < 55296 ∨ 57344 ≤ n then some (Char.ofNat n, rest)
  else if n < 56320 then
    match rest with
    | x :: y :: a2 :: b2 :: c2 :: d2 :: rest2 =>
      if x = '\\' ∧ y = 'u' then
        match hexQuad a2 b2 c2 d2 with
        | some m =>
          if 56320 ≤ m ∧ m < 57344 then
            some (Char.ofNat (65536 + 1024 * (n - 55296) + (m - 56320)), rest2)
          else none
        | none => none
      else none
    | _ => none
  else none

/-- Parse the four hex digits after `\\u` and decode. -/
def parseUEscape (cs : List Char) : Option (Char × List Char) :=
  match cs with
  | a :: b :: c1 :: d :: rest =>
    match hexQuad a b c1 d with
    | some n => decodeUEscape n rest
    | none => none
  | _ => none

/-- Parse one escape, after the backslash. -/
def parseEscape (cs : List Char) : Option (Char × List Char) :=
  match cs with
  | [] => none
  | e :: cs2 =>
    if e = 'u' then parseUEscape cs2
    else
      match escCode e with
      | some r => some (r, cs2)
      | none => none

/-- One string-scanning step: the closing quote, or one decoded character. -/
inductive StrTok : Type where
  | done : StrTok
  | ch : Char → StrTok

/-- One step of `py_scanstring` (strict mode): a quote ends the string, a
backslash starts an escape, a control character is rejected, anything else
is a literal character. -/
def strStep (cs : List Char) : Option (StrTok × List Char) :=
  match cs with
  | [] => none
  | c :: cs2 =>
    if c = '"' then some (.done, cs2)
    else if c = '\\' then (parseEscape cs2).map (fun p => (.ch p.1, p.2))
    else if c.toNat < 32 then none
    else some (.ch c, cs2)

/-- The scanning loop of `py_scanstring`, fuelled (each step consumes at
least one character, so `parseStringBody` always passes enough fuel). -/
def parseStringLoop : Nat → List Char → Option (List Char × List Char)
  | 0, _ => none
  | Nat.succ fuel, cs =>
    match strStep cs with
    | some (.done, rest) => some ([], rest)
    | some (.ch c, rest) => (parseStringLoop fuel rest).map (fun p => (c :: p.1, p.2))
    | none => none

/-- Body of a JSON string literal after the opening quote, as `py_scanstring`
reads it: returns the decoded characters and the input after the closing
quote. -/
def parseStringBody (cs : List Char) : Option (List Char × List Char) :=
  parseStringLoop (cs.length + 1) cs

/-- Is a decimal digit. -/
def isDigitChar (c : Char) : Bool := decide (48 ≤ c.toNat ∧ c.toNat ≤ 57)

/-- Consume a run of decimal digits, folding them onto `acc`. -/
def parseDigits : Nat → List Char → Nat × List Char
  | acc, [] => (acc, [])
  | acc, c :: cs =>
    if isDigitChar c then parseDigits (10 * acc + (c.toNat - 48)) cs else (acc, c :: cs)

/-- Integer part of Python's JSON number grammar, `0|[1-9][0-9]*`. -/
def parseNumberCore : List Char → Option (Nat × List Char)
  | [] => none
  | c :: cs =>
    if c = '0' then some (0, cs)
    else if isDigitChar c then some (parseDigits (c.toNat - 48) cs)
    else none

/-- An exponent body `[+-]?[0-9]` follows. -/
def expDigits : List Char → Bool
  | '+' :: d :: _ => isDigitChar d
  | '-' :: d :: _ => isDigitChar d
  | d :: _ => isDigitChar d
  | [] => false

/-- A fraction or exponent follows the integer part, which would make the
token a float (outside the model). -/
def floatFollows : List Char → Bool
  | '.' :: d :: _ => isDigitChar d
  | c :: rest => if c = 'e' ∨ c = 'E' then expDigits rest else false
  | [] => false

/-- Parse a JSON int (after an optional leading minus already consumed). -/
def parseNumber (neg : Bool) (cs : List Char) : Option (PyVal × List Char) :=
  match parseNumberCore cs with
  | none => none
  | some (n, rest) =>
    if floatFollows rest then none
    else some (.int (if neg then - (n : Int) else (n : Int)), rest)

/-- Match an expected literal tail, returning the remaining input. -/
def stripLit : List Char → List Char → Option (List Char)
  | [], cs => some cs
  | _ :: _, [] => none
  | l :: ls, c :: cs => if c = l then stripLit ls cs else none

mutual

/-- Parse one JSON value (`fuel` bounds the recursion depth; `loads` passes
enough for any input). -/
def parseVal : Nat → List Char → Option (PyVal × List Char)
  | 0, _ => none
  | Nat.succ fuel, cs =>
    match cs with
    | [] => none
    | c :: rest =>
      if c = 'n' then (stripLit ['u', 'l', 'l'] rest).map (fun r => (.null, r))
      else if c = 't' then (stripLit ['r', 'u', 'e'] rest).map (fun r => (.bool true, r))
      else if c = 'f' then (stripLit ['a', 'l', 's', 'e'] rest).map (fun r => (.bool false, r))
      else if c = '"' then (parseStringBody rest).map (fun p => (.str (String.mk p.1), p.2))
      else if c = '[' then
        match skipWs rest with
        | [] => none
        | d :: rest2 =>
          if d = ']' then some (.list [], rest2)
          else (parseItems fuel (d :: rest2)).map (fun p => (.list p.1, p.2))
      else if c = '{' then
        match skipWs rest with
        | [] => none
        | d :: rest2 =>
          if d = '}' then some (.dict [], rest2)
          else (parseMembers fuel (d :: rest2)).map (fun p => (.dict p.1, p.2))
      else if c = '-' then parseNumber true rest
      else if isDigitChar c then parseNumber false (c :: rest)
      else none

/-- Parse the elements of a nonempty JSON array, up to and including `]`. -/
def parseItems : Nat → List Char → Option (List PyVal × List Char)
  | 0, _ => none
  | Nat.succ fuel, cs =>
    match parseVal fuel cs with
    | none => none
    | some (v, rest) =>
      match skipWs rest with
      | [] => none
      | d :: rest2 =>
        if d = ',' then (parseItems fuel (skipWs rest2)).map (fun p => (v :: p.1, p.2))
        else if d = ']' then some ([v], rest2)
        else none

/-- Parse the members of a nonempty JSON object, up to and including `}`. -/
def parseMembers : Nat → List Char → Option (List (String × PyVal) × List Char)
  | 0, _ => none
  | Nat.succ fuel, cs =>
    match cs with
    | '"' :: rest =>
      match parseStringBody rest with
      | none => none
      | some (key, rest2) =>
        match skipWs rest2 with
        | [] => none
        | d :: rest3 =>
          if d = ':' then
            match parseVal fuel (skipWs rest3) with
            | none => none
            | some (v, rest4) =>
              match skipWs rest4 with
              | [] => none
              | e :: rest5 =>
                if e = ',' then
                  (parseMembers fuel (skipWs rest5)).map (fun p => ((String.mk key, v) :: p.1, p.2))
                else if e = '}' then some ([(String.mk key, v)], rest5)
                else none
          else none
    | _ => none

end

/-- `json.loads`: whitespace-tolerant parse of one JSON document; trailing
data (other than whitespace) is an error.  `none` both where Python raises
and where the value falls outside the modelled fragment. -/
def loads (s : String) : Option PyVal :=
  match parseVal (s.data.length + 2) (skipWs s.data) with
  | some (v, rest) => if skipWs rest = [] then some v else none
  | none => none

mutual

/-- Fuel needed by `parseVal` to parse a printed value (an overapproximation:
one unit per nested value or element step). -/
def costV : PyVal → Nat
  | .list xs => 1 + costItems xs
  | .dict fs => 1 + costMembers fs
  | _ => 1

/-- Fuel needed by `parseItems` for the printed elements. -/
def costItems : List PyVal → Nat
  | [] => 0
  | x :: xs => 1 + costV x + costItems xs

/-- Fuel needed by `parseMembers` for the printed members. -/
def costMembers : List (String × PyVal) → Nat
  | [] => 0
  | (_, v) :: fs => 1 + costV v + costMembers fs

end

/-- The continuations `dumps` puts after a number: end of input, or a
separator / closing bracket. -/
def numDelimOk : List Char → Prop
  | [] => True
  | c :: _ => c = ',' ∨ c = ']' ∨ c = '}'

/-- No digit at the head of the remaining input. -/
def noDigitHead : List Char → Prop
  | [] => True
  | c :: _ => isDigitChar c = false

/-! ### The database model

A store state is the contents of the SQLite file: the `kv_store` rows in
rowid (insertion) order, the `list_store` rows in rowid order, and any other
tables present, in `sqlite_master` order.  A foreign table carries its
column names and its rows of cell values; `readFails` models a table on
which `PRAGMA table_info` / `SELECT *` raises `sqlite3.OperationalError`. -/

/-- One row of `list_store`: `(list_name, item_index, item_value)`.
The AUTOINCREMENT `id` is the position in `DBState.rows`. -/
structure ListRow where
  list_name : String
  item_index : Int
  item_value : String
deriving DecidableEq

/-- A non-EasyDB table in the same database file. -/
structure ForeignTable where
  name : String
  columns : List String
  cells : List (List PyVal)
  readFails : Bool

/-- The persistent state of an `EasyDB` store. -/
structure DBState where
  kv : List (String × String)
  rows : List ListRow
  tables : List ForeignTable

/-- Errors the modelled operations can raise. -/
inductive Err where
  | keyError        -- `KeyError`
  | indexError      -- `IndexError("list index out of range")`
  | updateFailed    -- `Exception("Failed to update list item")`
  | attributeError  -- `AttributeError`
  | integrityError  -- `sqlite3.IntegrityError` from the UNIQUE constraint
  | decodeError     -- `json.JSONDecodeError` from `json.loads`
deriving DecidableEq

/-- `_set_key_value`: `INSERT OR REPLACE INTO kv_store` deletes any
conflicting row and inserts the new one with a fresh rowid (at the end). -/
def set_key_value (σ : DBState) (key : String) (v : PyVal) : DBState :=
  { σ with kv := σ.kv.filter (fun p => ¬(p.1 = key)) ++ [(key, dumps v)] }

/-- `_get_key_value`: `SELECT value FROM kv_store WHERE key = ?`, `KeyError`
if absent, else `json.loads` of the stored text. -/
def get_key_value (σ : DBState) (key : String) : Except Err PyVal :=
  match σ.kv.find? (fun p => p.1 = key) with
  | none => .error .keyError
  | some p =>
    match loads p.2 with
    | none => .error .decodeError
    | some v => .ok v

/-- `SELECT COUNT(*) FROM list_store WHERE list_name = ?`. -/
def listCount (σ : DBState) (name : String) : Nat :=
  (σ.rows.filter (fun r => r.list_name = name)).length

/-- `_is_list`: the count is positive. -/
def is_list (σ : DBState) (name : String) : Bool :=
  decide (0 < listCount σ name)

/-- `list_len` returns the same count. -/
def list_len (σ : DBState) (name : String) : Nat :=
  listCount σ name

/-- `list_append`: index := current count, then
`INSERT INTO list_store (list_name, item_index, item_value)`.  The UNIQUE
constraint on `(list_name, item_index)` raises if such a row exists. -/
def list_append (σ : DBState) (name : String) (item : PyVal) : Except Err DBState :=
  let index : Int := (listCount σ name : Int)
  if σ.rows.any (fun r => r.list_name = name ∧ r.item_index = index) then
    .error .integrityError
  else
    .ok { σ with rows := σ.rows ++ [⟨name, index, dumps item⟩] }

/-- Row order produced by `ORDER BY item_index` (a stable sort on the scan
order). -/
def rowLe (a b : ListRow) : Prop := a.item_index ≤ b.item_index

instance : DecidableRel rowLe := fun a b => by
  unfold rowLe
  infer_instance

/-- Strict version of `rowLe`, used to characterise sorted row lists. -/
def rowLt (a b : ListRow) : Prop := a.item_index < b.item_index

/-- The rows of one list as returned by
`SELECT item_value FROM list_store WHERE list_name = ? ORDER BY item_index`. -/
def sortedRows (σ : DBState) (name : String) : List ListRow :=
  (σ.rows.filter (fun r => r.list_name = name)).insertionSort rowLe

/-- `json.loads` of every fetched `item_value`, first failure propagating. -/
def decodeVals : List String → Except Err (List PyVal)
  | [] => .ok []
  | s :: t =>
    match loads s with
    | none => .error .decodeError
    | some v => (decodeVals t).map (fun l => v :: l)

/-- `list_get`: decode the ordered `item_value`s. -/
def list_get (σ : DBState) (name : String) : Except Err (List PyVal) :=
  decodeVals ((sortedRows σ name).map (fun r => r.item_value))

/-- `list_set`: `UPDATE list_store SET item_value = ? WHERE list_name = ?
AND item_index = ?`; on `rowcount = 0`, `IndexError` if `index >= count`,
otherwise the distinct `Exception("Failed to update list item")`. -/
def list_set (σ : DBState) (name : String) (index : Int) (item : PyVal) :
    Except Err DBState :=
  if σ.rows.any (fun r => r.list_name = name ∧ r.item_index = index) then
    let updated := σ.rows.map (fun r =>
      if r.list_name = name ∧ r.item_index = index then
        { r with item_value := dumps item }
      else r)
    .ok { σ with rows := updated }
  else if (listCount σ name : Int) ≤ index then
    .error .indexError
  else
    .error .updateFailed

/-- `list_get_item`: fetch the row at `(name, index)`, `IndexError` if
absent. -/
def list_get_item (σ : DBState) (name : String) (index : Int) : Except Err PyVal :=
  match σ.rows.find? (fun r => r.list_name = name ∧ r.item_index = index) with
  | none => .error .indexError
  | some r =>
    match loads r.item_value with
    | none => .error .decodeError
    | some v => .ok v

/-- `list_remove`: check the row exists (`IndexError` if not), `DELETE` it,
then `UPDATE ... SET item_index = item_index - 1 WHERE list_name = ? AND
item_index > ?`. -/
def list_remove (σ : DBState) (name : String) (index : Int) : Except Err DBState :=
  if σ.rows.any (fun r => r.list_name = name ∧ r.item_index = index) then
    let remaining := σ.rows.filter (fun r => ¬(r.list_name = name ∧ r.item_index = index))
    let renumbered := remaining.map (fun r =>
      if r.list_name = name ∧ index < r.item_index then
        { r with item_index := r.item_index - 1 }
      else r)
    .ok { σ with rows := renumbered }
  else
    .error .indexError

/-- `_set_list`: `DELETE FROM list_store WHERE list_name = ?`, then insert
the items at indices `0..len-1` in order (fresh rowids, at the end). -/
def set_list (σ : DBState) (name : String) (items : List PyVal) : DBState :=
  let cleared := σ.rows.filter (fun r => ¬(r.list_name = name))
  let inserted := items.enum.map (fun p => (⟨name, (p.1 : Int), dumps p.2⟩ : ListRow))
  { σ with rows := cleared ++ inserted }

/-- `EasyDBList.__setitem__`: append `None` for the missing indices then the
item when `index >= length`, else update in place. -/
def appendNones (name : String) : Nat → DBState → Except Err DBState
  | 0, σ => .ok σ
  | Nat.succ n, σ =>
    match list_append σ name PyVal.null with
    | .error e => .error e
    | .ok σ2 => appendNones name n σ2

def view_setitem (σ : DBState) (name : String) (index : Int) (item : PyVal) :
    Except Err DBState :=
  let length : Int := (list_len σ name : Int)
  if length ≤ index then
    match appendNones name (index - length).toNat σ with
    | .error e => .error e
    | .ok σ2 => list_append σ2 name item
  else
    list_set σ name index item

/-! #### The snapshot (`_get_all_data`) -/

/-- Python dict assignment `d[k] = v`: replace in place if the key is
present (keeping its position), else append. -/
def dictInsert (d : List (String × PyVal)) (k : String) (v : PyVal) :
    List (String × PyVal) :=
  if d.any (fun p => p.1 = k) then
    d.map (fun p => if p.1 = k then (k, v) else p)
  else
    d ++ [(k, v)]

/-- First pass: `SELECT key, value FROM kv_store`, `all_data[key] =
json.loads(value)` row by row. -/
def kvFold : List (String × String) → List (String × PyVal) →
    Except Err (List (String × PyVal))
  | [], acc => .ok acc
  | (k, s) :: t, acc =>
    match loads s with
    | none => .error .decodeError
    | some v => kvFold t (dictInsert acc k v)

/-- `SELECT DISTINCT list_name FROM list_store`: first occurrences, in scan
order. -/
def distinctAux : List ListRow → List String → List String
  | [], _ => []
  | r :: t, seen =>
    if r.list_name ∈ seen then distinctAux t seen
    else r.list_name :: distinctAux t (r.list_name :: seen)

def distinctNames (rows : List ListRow) : List String :=
  distinctAux rows []

/-- Second pass: `all_data[list_name] = self.list_get(list_name)` for each
distinct list name. -/
def listFold (σ : DBState) : List String → List (String × PyVal) →
    Except Err (List (String × PyVal))
  | [], acc => .ok acc
  | n :: t, acc =>
    match list_get σ n with
    | .error e => .error e
    | .ok vs => listFold σ t (dictInsert acc n (PyVal.list vs))

/-- `row_dict[col_name] = row[i]` for each column; `none` is the
`IndexError` when the row has fewer cells than there are columns. -/
def rowDictAux (cells : List PyVal) : List String → Nat → List (String × PyVal) →
    Option (List (String × PyVal))
  | [], _, acc => some acc
  | c :: t, i, acc =>
    match cells[i]? with
    | none => none
    | some v => rowDictAux cells t (i + 1) (dictInsert acc c v)

def rowsDicts (cols : List String) : List (List PyVal) →
    Option (List (List (String × PyVal)))
  | [] => some []
  | r :: rs =>
    match rowDictAux r cols 0 [] with
    | none => none
    | some d => (rowsDicts cols rs).map (fun ds => d :: ds)

/-- Third pass: the loop over `sqlite_master` tables.  The `try/except
sqlite3.OperationalError` wraps the whole loop, so the first failing table
aborts it, keeping what was accumulated so far. -/
def tableFold (acc : List (String × PyVal)) : List ForeignTable →
    Except Err (List (String × PyVal))
  | [] => .ok acc
  | t :: ts =>
    if t.name = "kv_store" ∨ t.name = "list_store" ∨ t.name = "sqlite_sequence" then
      tableFold acc ts
    else if t.readFails then
      .ok acc
    else
      match rowsDicts t.columns t.cells with
      | none => .error .indexError
      | some ds =>
        tableFold (dictInsert acc t.name (PyVal.list (ds.map PyVal.dict))) ts

/-- `_get_all_data`. -/
def get_all_data (σ : DBState) : Except Err (List (String × PyVal)) :=
  match kvFold σ.kv [] with
  | .error e => .error e
  | .ok acc1 =>
    match listFold σ (distinctNames σ.rows) acc1 with
    | .error e => .error e
    | .ok acc2 => tableFold acc2 σ.tables

/-! #### The report (`_generate_html_report`), data content only -/

/-- `isinstance(v, list) and len(v) > 0 and isinstance(v[0], dict)`. -/
def isTabular : PyVal → Bool
  | .list (.dict _ :: _) => true
  | _ => false

def sectionRows : PyVal → List PyVal
  | .list rows => rows
  | _ => []

/-- One rendered table section: header row count, the (at most 10) shown
rows, and the truncation notice `总共N行` when more than 10 rows exist. -/
structure TableSection where
  name : String
  headerCount : Nat
  shown : List PyVal
  truncNotice : Option Nat

def sectionOf (p : String × PyVal) : TableSection :=
  let rows := sectionRows p.2
  { name := p.1
    headerCount := rows.length
    shown := rows.take 10
    truncNotice := if 10 < rows.length then some rows.length else none }

/-- The data content of the HTML report: the `easydb_data` entries (keys
with their values, rendered as JSON) and the `table_data` sections. -/
structure Report where
  easydbEntries : List (String × PyVal)
  tableSections : List TableSection

def reportOf (d : List (String × PyVal)) : Report :=
  { easydbEntries := d.filter (fun p => !isTabular p.2)
    tableSections := (d.filter (fun p => isTabular p.2)).map sectionOf }

/-- `_generate_html_report` up to markup: build the snapshot, classify and
render. -/
def generate_report (σ : DBState) : Except Err Report :=
  (get_all_data σ).map reportOf

/-! #### The attribute router -/

/-- What an attribute-style read can resolve to. -/
inductive AttrRead where
  | allData (d : List (String × PyVal))
  | htmlReport (r : Report)
  | listView (name : String)
  | scalar (v : PyVal)

/-- Constructor tag, used to tell `AttrRead` values apart. -/
def attrTag : AttrRead → Nat
  | .allData _ => 0
  | .htmlReport _ => 1
  | .listView _ => 2
  | .scalar _ => 3

/-- `__getattr__`: `all_data`, then `html_report`, then the list check, then
the scalar lookup with `KeyError` turned into `AttributeError`. -/
def getattrModel (σ : DBState) (name : String) : Except Err AttrRead :=
  if name = "all_data" then
    (get_all_data σ).map AttrRead.allData
  else if name = "html_report" then
    (generate_report σ).map AttrRead.htmlReport
  else if is_list σ name then
    .ok (.listView name)
  else
    match get_key_value σ name with
    | .ok v => .ok (.scalar v)
    | .error .keyError => .error .attributeError
    | .error e => .error e

/-- `name.startswith('_')`: the first character is an underscore. -/
def startsUnderscore (name : String) : Bool :=
  match name.data with
  | c :: _ => c = '_'
  | [] => false

/-- `__setattr__`: names starting with `_` and `db_name` set object
attributes (no store change); a list value goes to `_set_list`, anything
else to `_set_key_value`. -/
def setattrModel (σ : DBState) (name : String) (v : PyVal) : DBState :=
  if startsUnderscore name ∨ name = "db_name" then σ
  else
    match v with
    | .list items => set_list σ name items
    | _ => set_key_value σ name v

/-! #### The list-index contiguity invariant -/

/-- The stored `item_index`es of one list, in scan order. -/
def listIndices (σ : DBState) (name : String) : List Int :=
  (σ.rows.filter (fun r => r.list_name = name)).map (fun r => r.item_index)

/-- Well-formedness: for every stored list name, the indices are a
permutation of `[0, count)`. -/
def WF (σ : DBState) : Prop :=
  ∀ name ∈ σ.rows.map ListRow.list_name,
    (listIndices σ name).Perm ((List.range (listCount σ name)).map (fun (k : Nat) => (k : Int)))

instance (σ : DBState) : Decidable (WF σ) := by
  unfold WF
  infer_instance

instance : IsTotal ListRow rowLe :=
  ⟨fun a b => Int.le_total a.item_index b.item_index⟩

instance : IsTrans ListRow rowLe :=
  ⟨fun _ _ _ hab hbc => le_trans hab hbc⟩

instance : IsAntisymm ListRow rowLt :=
  ⟨fun _ _ hab hba => absurd (lt_trans hab hba) (lt_irrefl _)⟩

/-! ### Concrete stores used to instantiate the claims -/

def brokenTable : ForeignTable :=
  { name := "broken", columns := ["a"], cells := [[.int 1]], readFails := true }

def healthyTable : ForeignTable :=
  { name := "healthy", columns := ["a"], cells := [[.int 1]], readFails := false }

/-- Two foreign tables, reading the first one fails. -/
def stateC1 : DBState := { kv := [], rows := [], tables := [brokenTable, healthyTable] }

/-- Only the healthy foreign table. -/
def stateC1b : DBState := { kv := [], rows := [], tables := [healthyTable] }

/-- One scalar and one two-element list. -/
def stateW : DBState :=
  { kv := [("k", "3")], rows := [⟨"l", 0, "1"⟩, ⟨"l", 1, "2"⟩], tables := [] }

/-- A foreign table with 15 rows. -/
def tableC6 : ForeignTable :=
  { name := "t", columns := ["c"]
    cells := (List.range 15).map (fun k => [PyVal.int k]), readFails := false }

/-- No scalars, two lists, one 15-row foreign table. -/
def stateC6 : DBState :=
  { kv := [], rows := [⟨"xs", 0, "1"⟩, ⟨"ys", 0, "2"⟩], tables := [tableC6] }

/-- Same, but the list `xs` holds a single JSON object. -/
def stateC6bad : DBState :=
  { kv := [], rows := [⟨"xs", 0, "\x7b\"a\": 1\x7d"⟩, ⟨"ys", 0, "2"⟩]
    tables := [tableC6] }

/-- Lists and scalars stored under both reserved names. -/
def stateC7 : DBState :=
  { kv := [("all_data", "1"), ("html_report", "2")]
    rows := [⟨"all_data", 0, "3"⟩, ⟨"html_report", 0, "4"⟩], tables := [] }

/-- A list stored under the reserved name `all_data`. -/
def stateC9 : DBState :=
  { kv := [], rows := [⟨"all_data", 0, "1"⟩], tables := [] }

/-- A store whose list `l` has a hole: rows at indices 0 and 2, count 2, no
row at index 1. -/
def stateH : DBState :=
  { kv := [], rows := [⟨"l", 0, "1"⟩, ⟨"l", 2, "3"⟩], tables := [] }

/-! ### Round trip of the serialization layer -/

theorem mk_data (s : String) : String.mk s.data = s := by
  cases s
  rfl

theorem toNat_ofNat_valid (n : Nat) (h : n.isValidChar) : (Char.ofNat n).toNat = n := by
  simp only [Char.ofNat, h, dif_pos, Char.ofNatAux, Char.toNat, UInt32.toNat, BitVec.toNat_ofNatLt]

theorem char_valid_ranges (c : Char) : c.toNat < 55296 ∨ (57344 ≤ c.toNat ∧ c.toNat < 1114112) := by
  have h := c.valid
  unfold UInt32.isValidChar Nat.isValidChar at h
  simp only [Char.toNat]
  rcases h with h | h
  · exact Or.inl (by exact_mod_cast h)
  · exact Or.inr ⟨by exact_mod_cast h.1, by exact_mod_cast h.2⟩

theorem hexVal_hexDigit (k : Nat) (h : k < 16) : hexVal (hexDigit k) = some k := by
  interval_cases k <;> decide

theorem hexQuad_hex4 (n : Nat) (h : n < 65536) :
    hexQuad (hexDigit (n / 4096 % 16)) (hexDigit (n / 256 % 16))
      (hexDigit (n / 16 % 16)) (hexDigit (n % 16)) = some n := by
  rw [hexQuad, hexVal_hexDigit _ (Nat.mod_lt _ (by omega)),
    hexVal_hexDigit _ (Nat.mod_lt _ (by omega)), hexVal_hexDigit _ (Nat.mod_lt _ (by omega)),
    hexVal_hexDigit _ (Nat.mod_lt _ (by omega))]
  show some (4096 * (n / 4096 % 16) + 256 * (n / 256 % 16) + 16 * (n / 16 % 16) + n % 16) =
    some n
  congr 1
  omega

theorem decodeUEscape_scalar (n : Nat) (rest : List Char) (hns : n < 55296 ∨ 57344 ≤ n) :
    decodeUEscape n rest = some (Char.ofNat n, rest) := by
  unfold decodeUEscape
  rw [if_pos hns]

theorem decodeUEscape_pair (n m : Nat) (hn1 : 55296 ≤ n) (hn2 : n < 56320)
    (hm1 : 56320 ≤ m) (hm2 : m < 57344) (rest : List Char) :
    decodeUEscape n ('\\' :: 'u' :: hex4 m ++ rest) =
      some (Char.ofNat (65536 + 1024 * (n - 55296) + (m - 56320)), rest) := by
  unfold decodeUEscape
  rw [if_neg (by omega), if_pos (by omega)]
  simp only [hex4, List.cons_append, List.nil_append, and_self, if_true, ite_true]
  rw [hexQuad_hex4 m (by omega)]
  show (if 56320 ≤ m ∧ m < 57344 then
      some (Char.ofNat (65536 + 1024 * (n - 55296) + (m - 56320)), rest)
    else none) = _
  rw [if_pos ⟨hm1, hm2⟩]

theorem parseUEscape_hex4 (n : Nat) (h : n < 65536) (rest : List Char) :
    parseUEscape (hex4 n ++ rest) = decodeUEscape n rest := by
  simp only [hex4, List.cons_append, List.nil_append]
  rw [show parseUEscape (hexDigit (n / 4096 % 16) :: hexDigit (n / 256 % 16) ::
      hexDigit (n / 16 % 16) :: hexDigit (n % 16) :: rest) =
    (match hexQuad (hexDigit (n / 4096 % 16)) (hexDigit (n / 256 % 16))
        (hexDigit (n / 16 % 16)) (hexDigit (n % 16)) with
     | some k => decodeUEscape k rest
     | none => none) from rfl]
  rw [hexQuad_hex4 n h]

theorem strStep_u (X : List Char) :
    strStep ('\\' :: 'u' :: X) = (parseUEscape X).map (fun p => (StrTok.ch p.1, p.2)) := rfl

theorem strStep_escapeChar (c : Char) (rest : List Char) :
    strStep (escapeChar c ++ rest) = some (.ch c, rest) := by
  have hv := char_valid_ranges c
  unfold escapeChar
  split_ifs with h1 h2 h3 h4 h5 h6 h7 h8 h9
  · subst h1; rfl
  · subst h2; rfl
  · -- literal printable character
    show strStep (c :: rest) = _
    rw [strStep]
    rw [if_neg h1, if_neg h2, if_neg (show ¬(c.toNat < 32) by omega)]
  · have hc : c = Char.ofNat 8 := by rw [← h4, Char.ofNat_toNat]
    subst hc; rfl
  · have hc : c = Char.ofNat 9 := by rw [← h5, Char.ofNat_toNat]
    subst hc; rfl
  · have hc : c = Char.ofNat 10 := by rw [← h6, Char.ofNat_toNat]
    subst hc; rfl
  · have hc : c = Char.ofNat 12 := by rw [← h7, Char.ofNat_toNat]
    subst hc; rfl
  · have hc : c = Char.ofNat 13 := by rw [← h8, Char.ofNat_toNat]
    subst hc; rfl
  · -- single \uXXXX escape: a valid scalar below 0x10000 here is not a surrogate
    simp only [List.cons_append]
    rw [strStep_u]
    rw [parseUEscape_hex4 c.toNat h9 rest,
      decodeUEscape_scalar c.toNat rest (by omega), Char.ofNat_toNat]
    rfl
  · -- surrogate pair
    have hle : 65536 ≤ c.toNat := by omega
    have hlt : c.toNat < 1114112 := by omega
    simp only [List.cons_append, List.append_assoc]
    rw [strStep_u]
    rw [parseUEscape_hex4 _ (by omega)]
    rw [show ('\\' :: 'u' :: (hex4 (56320 + (c.toNat - 65536) % 1024) ++ rest)) =
      ('\\' :: 'u' :: hex4 (56320 + (c.toNat - 65536) % 1024) ++ rest) by simp]
    rw [decodeUEscape_pair _ _ (by omega) (by omega) (by omega) (by omega) rest]
    have harith : 65536 + 1024 * (55296 + (c.toNat - 65536) / 1024 - 55296) +
        (56320 + (c.toNat - 65536) % 1024 - 56320) = c.toNat := by omega
    rw [harith, Char.ofNat_toNat]
    rfl

theorem parseStringLoop_escape (s : List Char) : ∀ fuel rest, s.length + 1 ≤ fuel →
    parseStringLoop fuel (escapeString s ++ '"' :: rest) = some (s, rest) := by
  induction s with
  | nil =>
    intro fuel rest hf
    cases fuel with
    | zero => omega
    | succ f => rfl
  | cons c t ih =>
    intro fuel rest hf
    cases fuel with
    | zero => simp at hf
    | succ f =>
      have he : escapeString (c :: t) ++ '"' :: rest =
          escapeChar c ++ (escapeString t ++ '"' :: rest) := by
        simp [escapeString]
      rw [he, parseStringLoop, strStep_escapeChar c (escapeString t ++ '"' :: rest)]
      have hfl : t.length + 1 ≤ f := by
        simp only [List.length_cons] at hf
        omega
      rw [show (match some (StrTok.ch c, escapeString t ++ '"' :: rest) with
        | some (.done, rest') => some ([], rest')
        | some (.ch c', rest') => (parseStringLoop f rest').map (fun p => (c' :: p.1, p.2))
        | none => none) =
          (parseStringLoop f (escapeString t ++ '"' :: rest)).map
            (fun p => (c :: p.1, p.2)) from rfl]
      rw [ih f rest hfl]
      rfl

theorem escapeChar_length (c : Char) : 1 ≤ (escapeChar c).length := by
  unfold escapeChar
  split_ifs <;> simp [hex4]

theorem escapeString_length (s : List Char) : s.length ≤ (escapeString s).length := by
  induction s with
  | nil => simp [escapeString]
  | cons c t ih =>
    have he : escapeString (c :: t) = escapeChar c ++ escapeString t := by
      simp [escapeString]
    rw [he, List.length_append, List.length_cons]
    have := escapeChar_length c
    omega

theorem parseStringBody_escapeString (cs rest : List Char) :
    parseStringBody (escapeString cs ++ ('"' :: rest)) = some (cs, rest) := by
  rw [parseStringBody]
  apply parseStringLoop_escape
  rw [List.length_append]
  have := escapeString_length cs
  simp only [List.length_cons]
  omega


theorem natDigitsAux_congr :
    ∀ f1 n : Nat, n < f1 → ∀ f2 : Nat, n < f2 → natDigitsAux f1 n = natDigitsAux f2 n := by
  intro f1
  induction f1 with
  | zero => omega
  | succ f ih =>
    intro n hn f2 hn2
    cases f2 with
    | zero => omega
    | succ g =>
      simp only [natDigitsAux]
      by_cases h10 : n < 10
      · simp [h10]
      · have hlt := Nat.div_lt_self (show 0 < n by omega) (show 1 < 10 by omega)
        simp only [h10, if_false, ite_false]
        rw [ih (n / 10) (by omega) g (by omega)]

theorem natDigits_eq (n : Nat) :
    natDigits n = if n < 10 then [Char.ofNat (48 + n)]
      else natDigits (n / 10) ++ [Char.ofNat (48 + n % 10)] := by
  have h1 : natDigits n = if n < 10 then [Char.ofNat (48 + n)]
      else natDigitsAux n (n / 10) ++ [Char.ofNat (48 + n % 10)] := rfl
  rw [h1]
  by_cases h : n < 10
  · simp [h]
  · have hlt := Nat.div_lt_self (show 0 < n by omega) (show 1 < 10 by omega)
    simp only [h, if_false, ite_false]
    rw [natDigitsAux_congr n (n / 10) (by omega) (n / 10 + 1) (by omega)]
    rfl

theorem natDigits_cons (n : Nat) :
    ∃ c ds, natDigits n = c :: ds ∧ isDigitChar c = true ∧ (1 ≤ n → c ≠ '0') := by
  induction n using Nat.strong_induction_on with
  | _ n ih =>
    rw [natDigits_eq]
    by_cases h : n < 10
    · have ht : (Char.ofNat (48 + n)).toNat = 48 + n :=
        toNat_ofNat_valid _ (Or.inl (by omega))
      refine ⟨Char.ofNat (48 + n), [], by simp [h], ?_, ?_⟩
      · simp only [isDigitChar, ht, decide_eq_true_eq]
        omega
      · intro h1 hc
        have h2 := congrArg Char.toNat hc
        rw [ht] at h2
        have h3 : Char.toNat '0' = 48 := rfl
        omega
    · obtain ⟨c, ds, hds, hdig, hne⟩ := ih (n / 10) (Nat.div_lt_self (by omega) (by omega))
      exact ⟨c, ds ++ [Char.ofNat (48 + n % 10)], by simp [h, hds], hdig,
        fun _ => hne (by omega)⟩

theorem parseDigits_natDigits (n : Nat) : ∀ acc rest,
    parseDigits acc (natDigits n ++ rest) =
      parseDigits (acc * 10 ^ (natDigits n).length + n) rest := by
  induction n using Nat.strong_induction_on with
  | _ n ih =>
    intro acc rest
    by_cases h : n < 10
    · rw [natDigits_eq]
      simp only [h, if_true, ite_true]
      have ht : (Char.ofNat (48 + n)).toNat = 48 + n :=
        toNat_ofNat_valid _ (Or.inl (by omega))
      have hd : isDigitChar (Char.ofNat (48 + n)) = true := by
        simp only [isDigitChar, ht, decide_eq_true_eq]; omega
      simp only [List.cons_append, List.nil_append, parseDigits, hd, if_true, ite_true, ht,
        List.length_cons, List.length_nil]
      have harg : 10 * acc + (48 + n - 48) = acc * 10 ^ (0 + 1) + n := by
        rw [pow_succ, pow_zero]; omega
      rw [harg]
      rfl
    · have hlt := Nat.div_lt_self (show 0 < n by omega) (show 1 < 10 by omega)
      rw [natDigits_eq]
      simp only [h, if_false, ite_false]
      rw [List.append_assoc, ih (n / 10) (by omega) acc _]
      have ht : (Char.ofNat (48 + n % 10)).toNat = 48 + n % 10 :=
        toNat_ofNat_valid _ (Or.inl (by omega))
      have hd : isDigitChar (Char.ofNat (48 + n % 10)) = true := by
        simp only [isDigitChar, ht, decide_eq_true_eq]; omega
      simp only [List.cons_append, List.nil_append, parseDigits, hd, if_true, ite_true, ht,
        List.length_append, List.length_cons, List.length_nil]
      have harg : 10 * (acc * 10 ^ (natDigits (n / 10)).length + n / 10) + (48 + n % 10 - 48) =
          acc * 10 ^ ((natDigits (n / 10)).length + (0 + 1)) + n := by
        rw [pow_add, pow_succ, pow_zero, ← mul_assoc]
        generalize acc * 10 ^ (natDigits (n / 10)).length = y
        omega
      rw [harg]
      rfl

theorem numDelimOk.noDigit {rest : List Char} (h : numDelimOk rest) : noDigitHead rest := by
  cases rest with
  | nil => trivial
  | cons c t =>
    show isDigitChar c = false
    rcases h with h | h | h <;> subst h <;> decide

theorem numDelimOk.noFloat {rest : List Char} (h : numDelimOk rest) : floatFollows rest = false := by
  cases rest with
  | nil => rfl
  | cons c t =>
    rcases h with h | h | h <;> subst h <;> rfl

theorem parseDigits_stop (n : Nat) (rest : List Char) (h : noDigitHead rest) :
    parseDigits n rest = (n, rest) := by
  cases rest with
  | nil => rfl
  | cons c t =>
    have hc : isDigitChar c = false := h
    simp [parseDigits, hc]

theorem parseNumberCore_natDigits (n : Nat) (rest : List Char) (h : noDigitHead rest) :
    parseNumberCore (natDigits n ++ rest) = some (n, rest) := by
  obtain ⟨c, ds, hds, hdig, hzero⟩ := natDigits_cons n
  by_cases h0 : n = 0
  · subst h0
    rfl
  · have hc0 : c ≠ '0' := hzero (by omega)
    rw [hds]
    show parseNumberCore (c :: (ds ++ rest)) = _
    rw [parseNumberCore, if_neg hc0, if_pos hdig]
    have step := parseDigits_natDigits n 0 rest
    rw [hds] at step
    have e1 : parseDigits 0 ((c :: ds) ++ rest) = parseDigits (c.toNat - 48) (ds ++ rest) := by
      show parseDigits 0 (c :: (ds ++ rest)) = _
      rw [parseDigits, if_pos hdig]
      congr 1
      omega
    rw [e1] at step
    rw [step]
    have e2 : 0 * 10 ^ ((c :: ds).length) + n = n := by simp
    rw [e2, parseDigits_stop n rest h]

theorem parseNumber_natDigits (neg : Bool) (n : Nat) (rest : List Char) (h : numDelimOk rest) :
    parseNumber neg (natDigits n ++ rest) =
      some (.int (if neg then - (n : Int) else (n : Int)), rest) := by
  unfold parseNumber
  rw [parseNumberCore_natDigits n rest h.noDigit]
  show (if floatFollows rest = true then none
    else some (PyVal.int (if neg then - (n : Int) else (n : Int)), rest)) = _
  rw [h.noFloat]
  simp

/-! #### One-step unfolding lemmas for the fuelled parser -/

theorem parseVal_succ_null (f : Nat) (rest : List Char) :
    parseVal (Nat.succ f) ('n' :: rest) =
      (stripLit ['u', 'l', 'l'] rest).map (fun r => (PyVal.null, r)) := rfl

theorem parseVal_succ_true (f : Nat) (rest : List Char) :
    parseVal (Nat.succ f) ('t' :: rest) =
      (stripLit ['r', 'u', 'e'] rest).map (fun r => (PyVal.bool true, r)) := rfl

theorem parseVal_succ_false (f : Nat) (rest : List Char) :
    parseVal (Nat.succ f) ('f' :: rest) =
      (stripLit ['a', 'l', 's', 'e'] rest).map (fun r => (PyVal.bool false, r)) := rfl

theorem parseVal_succ_quote (f : Nat) (rest : List Char) :
    parseVal (Nat.succ f) ('"' :: rest) =
      (parseStringBody rest).map (fun p => (PyVal.str (String.mk p.1), p.2)) := rfl

theorem parseVal_succ_lbrack (f : Nat) (rest : List Char) :
    parseVal (Nat.succ f) ('[' :: rest) =
      (match skipWs rest with
       | [] => none
       | d :: rest2 =>
         if d = ']' then some (PyVal.list [], rest2)
         else (parseItems f (d :: rest2)).map (fun p => (PyVal.list p.1, p.2))) := rfl

theorem parseVal_succ_lbrace (f : Nat) (rest : List Char) :
    parseVal (Nat.succ f) ('{' :: rest) =
      (match skipWs rest with
       | [] => none
       | d :: rest2 =>
         if d = '}' then some (PyVal.dict [], rest2)
         else (parseMembers f (d :: rest2)).map (fun p => (PyVal.dict p.1, p.2))) := rfl

theorem parseVal_succ_minus (f : Nat) (rest : List Char) :
    parseVal (Nat.succ f) ('-' :: rest) = parseNumber true rest := rfl

theorem parseVal_succ_other (f : Nat) (c : Char) (rest : List Char)
    (hn : ¬(c = 'n')) (ht : ¬(c = 't')) (hf : ¬(c = 'f')) (hq : ¬(c = '"'))
    (hlb : ¬(c = '[')) (hlc : ¬(c = '{')) (hm : ¬(c = '-')) :
    parseVal (Nat.succ f) (c :: rest) =
      (if isDigitChar c then parseNumber false (c :: rest) else none) := by
  rw [show parseVal (Nat.succ f) (c :: rest) =
    (if c = 'n' then (stripLit ['u', 'l', 'l'] rest).map (fun r => (PyVal.null, r))
     else if c = 't' then (stripLit ['r', 'u', 'e'] rest).map (fun r => (PyVal.bool true, r))
     else if c = 'f' then (stripLit ['a', 'l', 's', 'e'] rest).map (fun r => (PyVal.bool false, r))
     else if c = '"' then (parseStringBody rest).map (fun p => (PyVal.str (String.mk p.1), p.2))
     else if c = '[' then
       (match skipWs rest with
        | [] => none
        | d :: rest2 =>
          if d = ']' then some (PyVal.list [], rest2)
          else (parseItems f (d :: rest2)).map (fun p => (PyVal.list p.1, p.2)))
     else if c = '{' then
       (match skipWs rest with
        | [] => none
        | d :: rest2 =>
          if d = '}' then some (PyVal.dict [], rest2)
          else (parseMembers f (d :: rest2)).map (fun p => (PyVal.dict p.1, p.2)))
     else if c = '-' then parseNumber true rest
     else if isDigitChar c then parseNumber false (c :: rest)
     else none) from rfl]
  rw [if_neg hn, if_neg ht, if_neg hf, if_neg hq, if_neg hlb, if_neg hlc, if_neg hm]

theorem parseItems_succ (f : Nat) (cs : List Char) :
    parseItems (Nat.succ f) cs =
      (match parseVal f cs with
       | none => none
       | some (v, rest) =>
         match skipWs rest with
         | [] => none
         | d :: rest2 =>
           if d = ',' then (parseItems f (skipWs rest2)).map (fun p => (v :: p.1, p.2))
           else if d = ']' then some ([v], rest2)
           else none) := rfl

theorem parseMembers_succ_quote (f : Nat) (rest : List Char) :
    parseMembers (Nat.succ f) ('"' :: rest) =
      (match parseStringBody rest with
       | none => none
       | some (key, rest2) =>
         match skipWs rest2 with
         | [] => none
         | d :: rest3 =>
           if d = ':' then
             match parseVal f (skipWs rest3) with
             | none => none
             | some (v, rest4) =>
               match skipWs rest4 with
               | [] => none
               | e :: rest5 =>
                 if e = ',' then
                   (parseMembers f (skipWs rest5)).map
                     (fun p => ((String.mk key, v) :: p.1, p.2))
                 else if e = '}' then some ([(String.mk key, v)], rest5)
                 else none
           else none) := rfl

/-! #### First characters of printed output -/

theorem digitChar_facts (c : Char) (h : isDigitChar c = true) :
    isWsChar c = false ∧ ¬(c = ',') ∧ ¬(c = ']') ∧ ¬(c = '}') ∧ ¬(c = 'n') ∧ ¬(c = 't') ∧
      ¬(c = 'f') ∧ ¬(c = '"') ∧ ¬(c = '[') ∧ ¬(c = '{') ∧ ¬(c = '-') := by
  have hn : 48 ≤ c.toNat ∧ c.toNat ≤ 57 := by simpa [isDigitChar] using h
  constructor
  · cases hw : isWsChar c with
    | false => rfl
    | true =>
      have h2 := hw
      simp only [isWsChar, decide_eq_true_eq] at h2
      rcases h2 with h1 | h1 | h1 | h1 <;> rw [h1] at hn <;> revert hn <;> decide
  · refine ⟨?_, ?_, ?_, ?_, ?_, ?_, ?_, ?_, ?_, ?_⟩ <;>
      (intro hc; rw [hc] at hn; revert hn; decide)

theorem printChars_head (v : PyVal) :
    ∃ c t, printChars v = c :: t ∧ isWsChar c = false ∧ ¬(c = ',') ∧ ¬(c = ']') ∧ ¬(c = '}') := by
  cases v with
  | null => exact ⟨'n', _, rfl, by decide, by decide, by decide, by decide⟩
  | bool b =>
    cases b with
    | true => exact ⟨'t', _, rfl, by decide, by decide, by decide, by decide⟩
    | false => exact ⟨'f', _, rfl, by decide, by decide, by decide, by decide⟩
  | int k =>
    rw [show printChars (PyVal.int k) = intChars k from rfl]
    unfold intChars
    split_ifs with hk
    · exact ⟨'-', _, rfl, by decide, by decide, by decide, by decide⟩
    · obtain ⟨c, ds, hds, hdig, _⟩ := natDigits_cons k.toNat
      obtain ⟨hws, hcom, hrb, hrc, _⟩ := digitChar_facts c hdig
      exact ⟨c, ds, hds, hws, hcom, hrb, hrc⟩
  | str s => exact ⟨'"', _, rfl, by decide, by decide, by decide, by decide⟩
  | list xs => exact ⟨'[', _, rfl, by decide, by decide, by decide, by decide⟩
  | dict fs => exact ⟨'{', _, rfl, by decide, by decide, by decide, by decide⟩

theorem printItems_one (x : PyVal) : printItems [x] = printChars x := rfl

theorem printItems_cons (x y : PyVal) (ys : List PyVal) :
    printItems (x :: y :: ys) = printChars x ++ ',' :: ' ' :: printItems (y :: ys) := rfl

theorem printMembers_one (k : String) (v : PyVal) :
    printMembers [(k, v)] = '"' :: (escapeString k.data ++ ['"']) ++ ':' :: ' ' :: printChars v :=
  rfl

theorem printMembers_cons (k : String) (v : PyVal) (g : String × PyVal)
    (fs : List (String × PyVal)) :
    printMembers ((k, v) :: g :: fs) =
      ('"' :: (escapeString k.data ++ ['"']) ++ ':' :: ' ' :: printChars v)
        ++ ',' :: ' ' :: printMembers (g :: fs) := by
  cases g
  rfl

theorem printItems_head_decomp (x : PyVal) (xs : List PyVal) :
    ∃ Z, printItems (x :: xs) = printChars x ++ Z := by
  cases xs with
  | nil => exact ⟨[], by simp [printItems_one]⟩
  | cons y ys => exact ⟨',' :: ' ' :: printItems (y :: ys), printItems_cons x y ys⟩

theorem skipWs_cons_of (c : Char) (t : List Char) (h : isWsChar c = false) :
    skipWs (c :: t) = c :: t := by
  simp [skipWs, h]

theorem skipWs_space (t : List Char) : skipWs (' ' :: t) = skipWs t := by
  simp [skipWs, show isWsChar ' ' = true from rfl]

theorem skipWs_print (v : PyVal) (Z : List Char) :
    skipWs (printChars v ++ Z) = printChars v ++ Z := by
  obtain ⟨c, t, hct, hws, _⟩ := printChars_head v
  rw [hct, List.cons_append, skipWs_cons_of c _ hws]

theorem numDelimOk_comma (t : List Char) : numDelimOk (',' :: t) := Or.inl rfl

theorem numDelimOk_rbrack (t : List Char) : numDelimOk (']' :: t) := Or.inr (Or.inl rfl)

theorem numDelimOk_rbrace (t : List Char) : numDelimOk ('}' :: t) := Or.inr (Or.inr rfl)

theorem numDelimOk_nil : numDelimOk [] := trivial

theorem parseVal_print_int (k : Int) (f : Nat) (rest : List Char) (hd : numDelimOk rest) :
    parseVal (Nat.succ f) (intChars k ++ rest) = some (.int k, rest) := by
  unfold intChars
  split_ifs with hk
  · rw [List.cons_append, parseVal_succ_minus, parseNumber_natDigits true _ rest hd]
    have he : ((- k).toNat : Int) = - k := Int.toNat_of_nonneg (by omega)
    simp [he]
  · obtain ⟨c, ds, hds, hdig, _⟩ := natDigits_cons k.toNat
    obtain ⟨_, _, _, _, hn, ht, hf2, hq, hlb, hlc, hm⟩ := digitChar_facts c hdig
    rw [hds, List.cons_append, parseVal_succ_other f c _ hn ht hf2 hq hlb hlc hm,
      if_pos hdig, show c :: (ds ++ rest) = natDigits k.toNat ++ rest by
        rw [hds, List.cons_append], parseNumber_natDigits false _ rest hd]
    have he : ((k.toNat : Int)) = k := Int.toNat_of_nonneg (by omega)
    simp [he]

/-! #### The round trip, by mutual induction on the printed value -/

/-! #### The round trip, by induction on the parser fuel -/

theorem roundtrip_aux (fuel : Nat) :
    (∀ v rest, costV v ≤ fuel → numDelimOk rest →
      parseVal fuel (printChars v ++ rest) = some (v, rest)) ∧
    (∀ fs rest, fs ≠ ([] : List (String × PyVal)) → costMembers fs ≤ fuel →
      parseMembers fuel (printMembers fs ++ '}' :: rest) = some (fs, rest)) ∧
    (∀ xs rest, xs ≠ ([] : List PyVal) → costItems xs ≤ fuel →
      parseItems fuel (printItems xs ++ ']' :: rest) = some (xs, rest)) := by
  induction fuel with
  | zero =>
    refine ⟨?_, ?_, ?_⟩
    · intro v rest hcost hdelim
      exfalso
      cases v <;> simp only [costV] at hcost <;> omega
    · intro fs rest hne hcost
      exfalso
      cases fs with
      | nil => exact hne rfl
      | cons g fs2 => obtain ⟨k, v⟩ := g; simp only [costMembers] at hcost; omega
    · intro xs rest hne hcost
      exfalso
      cases xs with
      | nil => exact hne rfl
      | cons x xs2 => simp only [costItems] at hcost; omega
  | succ f ih =>
    obtain ⟨ihV, ihM, ihI⟩ := ih
    refine ⟨?_, ?_, ?_⟩
    · intro v rest hcost hdelim
      cases v with
      | null =>
        rw [show printChars PyVal.null ++ rest = 'n' :: 'u' :: 'l' :: 'l' :: rest from rfl,
          parseVal_succ_null]
        rfl
      | bool b =>
        cases b with
        | true =>
          rw [show printChars (PyVal.bool true) ++ rest = 't' :: 'r' :: 'u' :: 'e' :: rest from rfl,
            parseVal_succ_true]
          rfl
        | false =>
          rw [show printChars (PyVal.bool false) ++ rest =
            'f' :: 'a' :: 'l' :: 's' :: 'e' :: rest from rfl, parseVal_succ_false]
          rfl
      | int k =>
        rw [show printChars (PyVal.int k) = intChars k from rfl]
        exact parseVal_print_int k f rest hdelim
      | str s =>
        rw [show printChars (PyVal.str s) ++ rest =
          '"' :: (escapeString s.data ++ ('"' :: rest)) by simp [printChars],
          parseVal_succ_quote, parseStringBody_escapeString]
        simp [mk_data]
      | list xs =>
        cases xs with
        | nil =>
          rw [show printChars (PyVal.list []) ++ rest = '[' :: ']' :: rest from rfl,
            parseVal_succ_lbrack, skipWs_cons_of ']' rest (by decide)]
          rfl
        | cons x xs2 =>
          rw [show printChars (PyVal.list (x :: xs2)) ++ rest =
            '[' :: (printItems (x :: xs2) ++ ']' :: rest) by simp [printChars],
            parseVal_succ_lbrack]
          obtain ⟨c, t, hct, hws, hcom, hrb, hrc⟩ := printChars_head x
          obtain ⟨Z, hZ⟩ := printItems_head_decomp x xs2
          have hL : printItems (x :: xs2) ++ ']' :: rest = c :: (t ++ (Z ++ ']' :: rest)) := by
            rw [hZ, hct]
            simp
          rw [hL, skipWs_cons_of c _ hws]
          show (if c = ']' then some (PyVal.list [], t ++ (Z ++ ']' :: rest))
            else (parseItems f (c :: (t ++ (Z ++ ']' :: rest)))).map
              (fun p => (PyVal.list p.1, p.2))) = _
          rw [if_neg hrb, ← hL,
            ihI (x :: xs2) rest (by simp)
              (by simp only [costV] at hcost; omega)]
          rfl
      | dict fs =>
        cases fs with
        | nil =>
          rw [show printChars (PyVal.dict []) ++ rest = '{' :: '}' :: rest from rfl,
            parseVal_succ_lbrace, skipWs_cons_of '}' rest (by decide)]
          rfl
        | cons g fs2 =>
          obtain ⟨k, v⟩ := g
          rw [show printChars (PyVal.dict ((k, v) :: fs2)) ++ rest =
            '{' :: (printMembers ((k, v) :: fs2) ++ '}' :: rest) by simp [printChars],
            parseVal_succ_lbrace]
          have hhead : ∃ W, printMembers ((k, v) :: fs2) = '"' :: W := by
            cases fs2 with
            | nil => exact ⟨_, by rw [printMembers_one, List.cons_append]⟩
            | cons g2 fs3 =>
              exact ⟨_, by rw [printMembers_cons, List.cons_append, List.cons_append]⟩
          obtain ⟨W, hW⟩ := hhead
          have hL : printMembers ((k, v) :: fs2) ++ '}' :: rest = '"' :: (W ++ '}' :: rest) := by
            rw [hW, List.cons_append]
          rw [hL, skipWs_cons_of '"' _ (by decide)]
          show (parseMembers f ('"' :: (W ++ '}' :: rest))).map
            (fun p => (PyVal.dict p.1, p.2)) = _
          rw [← hL, ihM ((k, v) :: fs2) rest (by simp)
            (by simp only [costV] at hcost; omega)]
          rfl
    · intro fs rest hne hcost
      cases fs with
      | nil => exact absurd rfl hne
      | cons g fs2 =>
        obtain ⟨k, v⟩ := g
        have hM : printMembers ((k, v) :: fs2) ++ '}' :: rest =
            '"' :: (escapeString k.data ++ ('"' :: ':' :: ' ' :: (printChars v ++
              (printMembersSep fs2 ++ '}' :: rest)))) := by
          cases fs2 with
          | nil =>
            rw [printMembers_one]
            simp [printMembersSep]
          | cons g2 fs3 =>
            rw [printMembers_cons]
            simp [printMembersSep]
        rw [hM, parseMembers_succ_quote, parseStringBody_escapeString]
        show (match skipWs (':' :: ' ' :: (printChars v ++ (printMembersSep fs2 ++ '}' :: rest))) with
          | [] => none
          | d :: rest3 =>
            if d = ':' then
              match parseVal f (skipWs rest3) with
              | none => none
              | some (v2, rest4) =>
                match skipWs rest4 with
                | [] => none
                | e :: rest5 =>
                  if e = ',' then
                    (parseMembers f (skipWs rest5)).map
                      (fun (p : List (String × PyVal) × List Char) =>
                        ((String.mk k.data, v2) :: p.1, p.2))
                  else if e = '}' then some ([(String.mk k.data, v2)], rest5)
                  else none
            else none) = _
        rw [skipWs_cons_of ':' _ (by decide)]
        show (match parseVal f (skipWs (' ' :: (printChars v ++ (printMembersSep fs2 ++
            '}' :: rest)))) with
          | none => none
          | some (v2, rest4) =>
            match skipWs rest4 with
            | [] => none
            | e :: rest5 =>
              if e = ',' then
                (parseMembers f (skipWs rest5)).map
                  (fun (p : List (String × PyVal) × List Char) =>
                    ((String.mk k.data, v2) :: p.1, p.2))
              else if e = '}' then some ([(String.mk k.data, v2)], rest5)
              else none) = _
        rw [skipWs_space, skipWs_print]
        cases fs2 with
        | nil =>
          rw [show printMembersSep ([] : List (String × PyVal)) ++ '}' :: rest =
            '}' :: rest by simp [printMembersSep],
            ihV v ('}' :: rest)
              (by simp only [costMembers] at hcost; omega) (numDelimOk_rbrace rest)]
          rw [mk_data]
          rfl
        | cons g2 fs3 =>
          rw [show printMembersSep (g2 :: fs3) ++ '}' :: rest =
            ',' :: ' ' :: (printMembers (g2 :: fs3) ++ '}' :: rest) by simp [printMembersSep],
            ihV v _
              (by simp only [costMembers] at hcost; omega) (numDelimOk_comma _)]
          show (match skipWs (',' :: ' ' :: (printMembers (g2 :: fs3) ++ '}' :: rest)) with
            | [] => none
            | e :: rest5 =>
              if e = ',' then
                (parseMembers f (skipWs rest5)).map
                  (fun (p : List (String × PyVal) × List Char) =>
                    ((String.mk k.data, v) :: p.1, p.2))
              else if e = '}' then some ([(String.mk k.data, v)], rest5)
              else none) = _
          rw [skipWs_cons_of ',' _ (by decide)]
          show (parseMembers f (skipWs (' ' :: (printMembers (g2 :: fs3) ++ '}' :: rest)))).map
            (fun (p : List (String × PyVal) × List Char) =>
              ((String.mk k.data, v) :: p.1, p.2)) = _
          rw [skipWs_space]
          obtain ⟨k2, v2⟩ := g2
          have hhead : ∃ W, printMembers ((k2, v2) :: fs3) = '"' :: W := by
            cases fs3 with
            | nil => exact ⟨_, by rw [printMembers_one, List.cons_append]⟩
            | cons g3 fs4 =>
              exact ⟨_, by rw [printMembers_cons, List.cons_append, List.cons_append]⟩
          obtain ⟨W, hW⟩ := hhead
          rw [hW, List.cons_append, skipWs_cons_of '"' _ (by decide), ← List.cons_append, ← hW,
            ihM ((k2, v2) :: fs3) rest (by simp)
              (by simp only [costMembers] at hcost ⊢; omega)]
          rw [mk_data]
          rfl
    · intro xs rest hne hcost
      cases xs with
      | nil => exact absurd rfl hne
      | cons x xs2 =>
        rw [parseItems_succ]
        cases xs2 with
        | nil =>
          rw [printItems_one,
            ihV x (']' :: rest)
              (by simp only [costItems] at hcost; omega) (numDelimOk_rbrack rest)]
          rfl
        | cons y ys =>
          rw [printItems_cons,
            show (printChars x ++ ',' :: ' ' :: printItems (y :: ys)) ++ ']' :: rest =
              printChars x ++ (',' :: ' ' :: (printItems (y :: ys) ++ ']' :: rest)) by simp,
            ihV x _
              (by simp only [costItems] at hcost; omega) (numDelimOk_comma _)]
          show (parseItems f (skipWs (' ' :: (printItems (y :: ys) ++ ']' :: rest)))).map
            (fun p => (x :: p.1, p.2)) = some (x :: y :: ys, rest)
          rw [skipWs_space]
          obtain ⟨Z, hZ⟩ := printItems_head_decomp y ys
          rw [hZ, List.append_assoc, skipWs_print, ← List.append_assoc, ← hZ,
            ihI (y :: ys) rest (by simp)
              (by simp only [costItems] at hcost ⊢; omega)]
          rfl

theorem parseVal_print (v : PyVal) (fuel : Nat) (rest : List Char)
    (hcost : costV v ≤ fuel) (hdelim : numDelimOk rest) :
    parseVal fuel (printChars v ++ rest) = some (v, rest) :=
  (roundtrip_aux fuel).1 v rest hcost hdelim

/-! #### Fuel bound: the printed length plus slack covers the needed fuel -/

theorem printChars_length_pos (v : PyVal) : 1 ≤ (printChars v).length := by
  obtain ⟨c, t, hct, _⟩ := printChars_head v
  rw [hct]
  simp

theorem cost_aux (n : Nat) :
    (∀ v : PyVal, sizeOf v ≤ n → costV v ≤ (printChars v).length) ∧
    (∀ fs : List (String × PyVal), sizeOf fs ≤ n →
      costMembers fs ≤ (printMembers fs).length + 1) ∧
    (∀ xs : List PyVal, sizeOf xs ≤ n → costItems xs ≤ (printItems xs).length + 1) := by
  induction n with
  | zero =>
    refine ⟨?_, ?_, ?_⟩
    · intro v hv
      exfalso
      cases v <;> simp at hv
    · intro fs hfs
      exfalso
      cases fs <;> simp at hfs
    · intro xs hxs
      exfalso
      cases xs <;> simp at hxs
  | succ n ih =>
    obtain ⟨ihV, ihM, ihI⟩ := ih
    refine ⟨?_, ?_, ?_⟩
    · intro v hv
      cases v with
      | null => simp [costV, printChars]
      | bool b => cases b <;> simp [costV, printChars]
      | int k =>
        have := printChars_length_pos (PyVal.int k)
        simp only [costV]
        omega
      | str s => simp [costV, printChars]
      | list xs =>
        have hx : sizeOf xs ≤ n := by simp at hv; omega
        have h2 := ihI xs hx
        simp only [costV, printChars, List.length_cons, List.length_append,
          List.length_singleton]
        omega
      | dict fs =>
        have hx : sizeOf fs ≤ n := by simp at hv; omega
        have h2 := ihM fs hx
        simp only [costV, printChars, List.length_cons, List.length_append,
          List.length_singleton]
        omega
    · intro fs hfs
      cases fs with
      | nil => simp [costMembers, printMembers]
      | cons g fs2 =>
        obtain ⟨k, v⟩ := g
        have hv : sizeOf v ≤ n := by simp at hfs; omega
        have h1 := ihV v hv
        cases fs2 with
        | nil =>
          simp only [costMembers, printMembers_one, List.length_append, List.length_cons]
          omega
        | cons g2 fs3 =>
          have hg : sizeOf (g2 :: fs3) ≤ n := by simp at hfs ⊢; omega
          have h2 := ihM (g2 :: fs3) hg
          simp only [costMembers, printMembers_cons, List.length_append,
            List.length_cons] at h2 ⊢
          omega
    · intro xs hxs
      cases xs with
      | nil => simp [costItems, printItems]
      | cons x xs2 =>
        have hx : sizeOf x ≤ n := by simp at hxs; omega
        have h1 := ihV x hx
        cases xs2 with
        | nil =>
          simp only [costItems, printItems_one]
          omega
        | cons y ys =>
          have hy : sizeOf (y :: ys) ≤ n := by simp at hxs ⊢; omega
          have h2 := ihI (y :: ys) hy
          simp only [costItems, printItems_cons, List.length_append,
            List.length_cons] at h2 ⊢
          omega

theorem costV_le (v : PyVal) : costV v ≤ (printChars v).length + 2 :=
  le_trans ((cost_aux (sizeOf v)).1 v le_rfl) (by omega)

/-- `json.loads (json.dumps v) = v` on the modelled JSON fragment. -/
theorem loads_dumps (v : PyVal) : loads (dumps v) = some v := by
  unfold loads dumps
  rw [show (String.mk (printChars v)).data = printChars v from rfl]
  have hs : skipWs (printChars v) = printChars v := by
    have h := skipWs_print v []
    simpa using h
  rw [hs]
  have he : printChars v = printChars v ++ [] := by simp
  rw [he, parseVal_print v _ [] (by simpa using costV_le v) numDelimOk_nil]
  rfl

/-! ### Sorted row lists -/

theorem sortedRows_perm (σ : DBState) (name : String) :
    (sortedRows σ name).Perm (σ.rows.filter (fun r => r.list_name = name)) :=
  List.perm_insertionSort rowLe _

theorem sortedRows_sorted (σ : DBState) (name : String) :
    (sortedRows σ name).Pairwise rowLe :=
  List.sorted_insertionSort rowLe _

theorem sortedRows_length (σ : DBState) (name : String) :
    (sortedRows σ name).length = listCount σ name :=
  (sortedRows_perm σ name).length_eq

theorem listIndices_def (σ : DBState) (name : String) :
    listIndices σ name =
      (σ.rows.filter (fun r => r.list_name = name)).map (fun r => r.item_index) := rfl

theorem WF_perm {σ : DBState} (hWF : WF σ) (name : String) :
    (listIndices σ name).Perm ((List.range (listCount σ name)).map (fun (k : Nat) => (k : Int))) := by
  by_cases hmem : name ∈ σ.rows.map ListRow.list_name
  · exact hWF name hmem
  · have hf : σ.rows.filter (fun r => r.list_name = name) = [] := by
      rw [List.filter_eq_nil_iff]
      intro r hr
      simp only [decide_eq_true_eq]
      intro h
      exact hmem (List.mem_map.mpr ⟨r, hr, h⟩)
    have hc : listCount σ name = 0 := by
      simp [listCount, hf]
    rw [listIndices_def, hf, hc]
    rfl

theorem pairwise_lt_of_le_nodup {L : List ListRow} (h1 : L.Pairwise rowLe)
    (h2 : (L.map (fun r => r.item_index)).Nodup) : L.Pairwise rowLt := by
  have h3 : L.Pairwise (fun a b => a.item_index ≠ b.item_index) :=
    (List.pairwise_map).mp h2
  exact (h1.and h3).imp (fun h => lt_of_le_of_ne h.1 h.2)

theorem range_map_sorted (n : Nat) :
    ((List.range n).map (fun (k : Nat) => (k : Int))).Pairwise (· ≤ ·) := by
  refine (List.pairwise_map).mpr ?_
  refine (List.pairwise_lt_range n).imp (fun h => ?_)
  dsimp only
  omega

theorem range_map_nodup (n : Nat) :
    ((List.range n).map (fun (k : Nat) => (k : Int))).Nodup := by
  refine (List.nodup_range n).map ?_
  intro a b h
  dsimp only at h
  omega

theorem sortedRows_map_index {σ : DBState} (hWF : WF σ) (name : String) :
    (sortedRows σ name).map (fun r => r.item_index) =
      (List.range (listCount σ name)).map (fun (k : Nat) => (k : Int)) := by
  have hperm : ((sortedRows σ name).map (fun r => r.item_index)).Perm
      ((List.range (listCount σ name)).map (fun (k : Nat) => (k : Int))) :=
    ((sortedRows_perm σ name).map _).trans (WF_perm hWF name)
  have hs1 : ((sortedRows σ name).map (fun r => r.item_index)).Pairwise (· ≤ ·) :=
    (sortedRows_sorted σ name).map _ (fun a b h => h)
  exact List.eq_of_perm_of_sorted hperm hs1 (range_map_sorted _)

theorem sortedRows_eq {σ : DBState} {name : String} {M : List ListRow}
    (hperm : (σ.rows.filter (fun r => r.list_name = name)).Perm M)
    (hM : M.Pairwise rowLt) : sortedRows σ name = M := by
  have h1 : (sortedRows σ name).Perm M := (sortedRows_perm σ name).trans hperm
  have hMnd : (M.map (fun r => r.item_index)).Nodup :=
    (List.pairwise_map).mpr (hM.imp (fun h => ne_of_lt h))
  have hnd : ((sortedRows σ name).map (fun r => r.item_index)).Nodup :=
    ((h1.map _).nodup_iff).mpr hMnd
  exact List.eq_of_perm_of_sorted h1
    (pairwise_lt_of_le_nodup (sortedRows_sorted σ name) hnd) hM

/-! ### Effects of the storage operations -/

theorem listIndices_length (σ : DBState) (name : String) :
    (listIndices σ name).length = listCount σ name := by
  simp [listIndices, listCount]

theorem WF_of_counts {σ' : DBState}
    (h : ∀ nm, ∃ k, (listIndices σ' nm).Perm
      ((List.range k).map (fun (k : Nat) => (k : Int)))) : WF σ' := by
  intro nm _
  obtain ⟨k, hk⟩ := h nm
  have hc : listCount σ' nm = k := by
    rw [← listIndices_length, hk.length_eq, List.length_map, List.length_range]
  rw [hc]
  exact hk

theorem filter_name_map_preserve {f : ListRow → ListRow}
    (hf : ∀ r, (f r).list_name = r.list_name) (l : List ListRow) (name : String) :
    (l.map f).filter (fun r => r.list_name = name) =
      (l.filter (fun r => r.list_name = name)).map f := by
  rw [List.filter_map]
  congr 1
  apply List.filter_congr
  intro r _
  simp only [Function.comp_apply, hf r]

theorem get_key_value_set (σ : DBState) (k : String) (v : PyVal) :
    get_key_value (set_key_value σ k v) k = .ok v := by
  unfold set_key_value get_key_value
  simp only
  rw [List.find?_append]
  have h1 : (σ.kv.filter (fun p => ¬(p.1 = k))).find? (fun p => p.1 = k) = none := by
    rw [List.find?_eq_none]
    intro p hp
    have h2 := (List.mem_filter.mp hp).2
    simp only [decide_eq_true_eq] at h2 ⊢
    simpa using h2
  rw [h1]
  simp [List.find?, loads_dumps]

theorem list_append_ok {σ : DBState} (hWF : WF σ) (name : String) (item : PyVal) :
    list_append σ name item =
      .ok { σ with rows := σ.rows ++
        [⟨name, (listCount σ name : Int), dumps item⟩] } := by
  simp only [list_append]
  rw [if_neg]
  intro hany
  simp only [List.any_eq_true, decide_eq_true_eq] at hany
  obtain ⟨r, hr, hn, hi⟩ := hany
  have hmem : ((listCount σ name : Int)) ∈ listIndices σ name := by
    rw [listIndices_def]
    exact List.mem_map.mpr ⟨r, List.mem_filter.mpr ⟨hr, by simp [hn]⟩, hi⟩
  rw [(WF_perm hWF name).mem_iff] at hmem
  simp only [List.mem_map, List.mem_range] at hmem
  obtain ⟨k, hk, hke⟩ := hmem
  omega

theorem listIndices_append_self (σ : DBState) (name : String) (s : String) (i : Int) :
    listIndices { σ with rows := σ.rows ++ [⟨name, i, s⟩] } name =
      listIndices σ name ++ [i] := by
  simp [listIndices, List.filter_append]

theorem listIndices_append_other {σ : DBState} {name nm : String} (hne : ¬(name = nm))
    (s : String) (i : Int) :
    listIndices { σ with rows := σ.rows ++ [(⟨name, i, s⟩ : ListRow)] } nm =
      listIndices σ nm := by
  simp [listIndices, List.filter_append, hne]

theorem WF_append {σ : DBState} (hWF : WF σ) (name : String) (item : PyVal) :
    WF { σ with rows := σ.rows ++
      [⟨name, (listCount σ name : Int), dumps item⟩] } := by
  apply WF_of_counts
  intro nm
  by_cases hnm : nm = name
  · subst hnm
    refine ⟨listCount σ nm + 1, ?_⟩
    rw [listIndices_append_self, List.range_succ, List.map_append]
    exact (WF_perm hWF nm).append (by simp)
  · refine ⟨listCount σ nm, ?_⟩
    rw [listIndices_append_other (fun h => hnm h.symm) _ _]
    exact WF_perm hWF nm

theorem listCount_append_self (σ : DBState) (name : String) (s : String) (i : Int) :
    listCount { σ with rows := σ.rows ++ [⟨name, i, s⟩] } name =
      listCount σ name + 1 := by
  rw [← listIndices_length, listIndices_append_self, List.length_append,
    listIndices_length]
  rfl

/-! #### `_set_list` -/

theorem listIndices_set_list_self (σ : DBState) (name : String) (items : List PyVal) :
    listIndices (set_list σ name items) name =
      (List.range items.length).map (fun (k : Nat) => (k : Int)) := by
  simp only [set_list, listIndices, List.filter_append, List.map_append]
  have h1 : (σ.rows.filter (fun r => ¬(r.list_name = name))).filter
      (fun r => r.list_name = name) = [] := by
    rw [List.filter_eq_nil_iff]
    intro r hr
    have h2 := (List.mem_filter.mp hr).2
    simp only [decide_eq_true_eq] at h2 ⊢
    exact h2
  have h2 : (items.enum.map
        (fun p => (⟨name, (p.1 : Int), dumps p.2⟩ : ListRow))).filter
      (fun r => r.list_name = name) =
      items.enum.map (fun p => (⟨name, (p.1 : Int), dumps p.2⟩ : ListRow)) := by
    rw [List.filter_eq_self]
    intro r hr
    simp only [List.mem_map] at hr
    obtain ⟨p, _, rfl⟩ := hr
    simp
  rw [h1, h2]
  simp only [List.map_nil, List.nil_append, List.map_map]
  have h3 : items.enum.map
      ((fun r : ListRow => r.item_index) ∘
        (fun p => (⟨name, (p.1 : Int), dumps p.2⟩ : ListRow))) =
      (items.enum.map Prod.fst).map (fun (k : Nat) => (k : Int)) := by
    rw [List.map_map]
    rfl
  rw [h3, List.enum_map_fst]

theorem listIndices_set_list_other {σ : DBState} {name nm : String}
    (hne : ¬(nm = name)) (items : List PyVal) :
    listIndices (set_list σ name items) nm = listIndices σ nm := by
  simp only [set_list, listIndices, List.filter_append, List.map_append]
  have h2 : (items.enum.map
        (fun p => (⟨name, (p.1 : Int), dumps p.2⟩ : ListRow))).filter
      (fun r => r.list_name = nm) = [] := by
    rw [List.filter_eq_nil_iff]
    intro r hr
    simp only [List.mem_map] at hr
    obtain ⟨p, _, rfl⟩ := hr
    simp only [decide_eq_true_eq]
    exact fun h => hne h.symm
  have h1 : (σ.rows.filter (fun r => ¬(r.list_name = name))).filter
      (fun r => r.list_name = nm) = σ.rows.filter (fun r => r.list_name = nm) := by
    rw [List.filter_filter]
    apply List.filter_congr
    intro r _
    by_cases hn : r.list_name = nm <;> simp [hn, hne]
  rw [h1, h2, List.map_nil, List.append_nil]

theorem WF_set_list {σ : DBState} (hWF : WF σ) (name : String) (items : List PyVal) :
    WF (set_list σ name items) := by
  apply WF_of_counts
  intro nm
  by_cases hnm : nm = name
  · subst hnm
    exact ⟨items.length, by rw [listIndices_set_list_self]⟩
  · exact ⟨listCount σ nm, by rw [listIndices_set_list_other hnm]; exact WF_perm hWF nm⟩

theorem listCount_set_list_self (σ : DBState) (name : String) (items : List PyVal) :
    listCount (set_list σ name items) name = items.length := by
  rw [← listIndices_length, listIndices_set_list_self]
  simp

/-! #### `list_remove` -/

theorem list_remove_rows {σ σ' : DBState} {name : String} {i : Int}
    (h : list_remove σ name i = .ok σ') :
    σ'.kv = σ.kv ∧ σ'.tables = σ.tables ∧
    σ'.rows = (σ.rows.filter
        (fun r => ¬(r.list_name = name ∧ r.item_index = i))).map
      (fun r => if r.list_name = name ∧ i < r.item_index then
        { r with item_index := r.item_index - 1 }
      else r) := by
  unfold list_remove at h
  split at h
  · simp only [Except.ok.injEq] at h
    subst h
    exact ⟨rfl, rfl, rfl⟩
  · cases h

theorem list_remove_any {σ σ' : DBState} {name : String} {i : Int}
    (h : list_remove σ name i = .ok σ') :
    σ.rows.any (fun r => r.list_name = name ∧ r.item_index = i) = true := by
  unfold list_remove at h
  split at h
  · assumption
  · cases h

theorem row_exists_bound {σ : DBState} {name : String} {i : Int} (hWF : WF σ)
    (hex : σ.rows.any (fun r => r.list_name = name ∧ r.item_index = i) = true) :
    ∃ j : Nat, (j : Int) = i ∧ j < listCount σ name := by
  simp only [List.any_eq_true, decide_eq_true_eq] at hex
  obtain ⟨r, hr, hn, hi⟩ := hex
  have hmem : i ∈ listIndices σ name := by
    rw [listIndices_def]
    exact List.mem_map.mpr ⟨r, List.mem_filter.mpr ⟨hr, by simp [hn]⟩, hi⟩
  rw [(WF_perm hWF name).mem_iff] at hmem
  simp only [List.mem_map, List.mem_range] at hmem
  obtain ⟨k, hk, hke⟩ := hmem
  exact ⟨k, hke, hk⟩

theorem listIndices_remove_self {σ σ' : DBState} {name : String} {i : Int}
    (h : list_remove σ name i = .ok σ') :
    listIndices σ' name =
      ((listIndices σ name).filter (fun x => ¬(x = i))).map
        (fun x => if i < x then x - 1 else x) := by
  obtain ⟨-, -, hrows⟩ := list_remove_rows h
  rw [listIndices_def, hrows,
    filter_name_map_preserve (fun r => by split_ifs <;> rfl)]
  have h1 : (σ.rows.filter
        (fun r => ¬(r.list_name = name ∧ r.item_index = i))).filter
      (fun r => r.list_name = name) =
      (σ.rows.filter (fun r => r.list_name = name)).filter
        (fun r => ¬(r.item_index = i)) := by
    rw [List.filter_filter, List.filter_filter]
    apply List.filter_congr
    intro r _
    by_cases hn : r.list_name = name <;> by_cases hidx : r.item_index = i <;>
      simp [hn, hidx]
  rw [h1, List.map_map]
  have h2 : ((σ.rows.filter (fun r => r.list_name = name)).filter
        (fun r => ¬(r.item_index = i))).map
      ((fun r : ListRow => r.item_index) ∘
        (fun r : ListRow => if r.list_name = name ∧ i < r.item_index then
          { r with item_index := r.item_index - 1 }
        else r)) =
      ((σ.rows.filter (fun r => r.list_name = name)).filter
        (fun r => ¬(r.item_index = i))).map
      (fun r : ListRow => if i < r.item_index then r.item_index - 1
        else r.item_index) := by
    apply List.map_congr_left
    intro r hr
    have hn : r.list_name = name :=
      by simpa using (List.mem_filter.mp (List.mem_filter.mp hr).1).2
    simp only [Function.comp_apply, hn, true_and]
    split_ifs <;> rfl
  rw [h2]
  have h3 : ((σ.rows.filter (fun r => r.list_name = name)).filter
        (fun r => ¬(r.item_index = i))).map
      (fun r : ListRow => if i < r.item_index then r.item_index - 1
        else r.item_index) =
      (((σ.rows.filter (fun r => r.list_name = name)).filter
        (fun r => ¬(r.item_index = i))).map
          (fun r : ListRow => r.item_index)).map
      (fun x : Int => if i < x then x - 1 else x) := by
    rw [List.map_map]
    rfl
  rw [h3]
  congr 1
  rw [listIndices_def, List.filter_map]
  congr 1

theorem listIndices_remove_other {σ σ' : DBState} {name nm : String} {i : Int}
    (hne : ¬(nm = name)) (h : list_remove σ name i = .ok σ') :
    listIndices σ' nm = listIndices σ nm := by
  obtain ⟨-, -, hrows⟩ := list_remove_rows h
  rw [listIndices_def, hrows,
    filter_name_map_preserve (fun r => by split_ifs <;> rfl)]
  have h1 : (σ.rows.filter
        (fun r => ¬(r.list_name = name ∧ r.item_index = i))).filter
      (fun r => r.list_name = nm) =
      σ.rows.filter (fun r => r.list_name = nm) := by
    rw [List.filter_filter]
    apply List.filter_congr
    intro r _
    by_cases hn : r.list_name = nm <;> simp [hn, hne]
  rw [h1]
  have h2 : (σ.rows.filter (fun r => r.list_name = nm)).map
      (fun r : ListRow => if r.list_name = name ∧ i < r.item_index then
        { r with item_index := r.item_index - 1 }
      else r) = σ.rows.filter (fun r => r.list_name = nm) := by
    have h3 : ∀ r ∈ σ.rows.filter (fun r => r.list_name = nm),
        (if r.list_name = name ∧ i < r.item_index then
          { r with item_index := r.item_index - 1 }
        else r) = r := by
      intro r hr
      have hn : r.list_name = nm := by simpa using (List.mem_filter.mp hr).2
      rw [if_neg]
      intro hcon
      exact hne (hcon.1.symm.trans hn).symm
    calc (σ.rows.filter (fun r => r.list_name = nm)).map _
        = (σ.rows.filter (fun r => r.list_name = nm)).map id :=
          List.map_congr_left h3
      _ = _ := List.map_id _
  rw [h2, listIndices_def]

theorem dec_filter_range (n j : Nat) (hj : j < n) :
    ((((List.range n).map (fun (k : Nat) => (k : Int))).filter
        (fun x => ¬(x = (j : Int)))).map
      (fun x => if (j : Int) < x then x - 1 else x)) =
      (List.range (n - 1)).map (fun (k : Nat) => (k : Int)) := by
  induction n with
  | zero => exact absurd hj (Nat.not_lt_zero j)
  | succ k ih =>
    rw [List.range_succ, List.map_append, List.filter_append, List.map_append]
    by_cases hjk : j = k
    · subst hjk
      have hA : ((List.range j).map (fun (k : Nat) => (k : Int))).filter
          (fun x => ¬(x = (j : Int))) =
          (List.range j).map (fun (k : Nat) => (k : Int)) := by
        rw [List.filter_eq_self]
        intro x hx
        simp only [List.mem_map, List.mem_range] at hx
        obtain ⟨a, ha, rfl⟩ := hx
        simp only [decide_eq_true_eq]
        omega
      have hA2 : (((List.range j).map (fun (k : Nat) => (k : Int))).map
          (fun x => if (j : Int) < x then x - 1 else x)) =
          (List.range j).map (fun (k : Nat) => (k : Int)) := by
        rw [List.map_map]
        apply List.map_congr_left
        intro a ha
        simp only [List.mem_range] at ha
        simp only [Function.comp_apply]
        rw [if_neg (by omega)]
      have hB : (([j].map (fun (k : Nat) => (k : Int))).filter
          (fun x => ¬(x = (j : Int)))) = [] := by
        simp
      rw [hA, hA2, hB]
      simp
    · have hjk2 : j < k := by omega
      rw [ih hjk2]
      have hB : ((([k].map (fun (k : Nat) => (k : Int))).filter
          (fun x => ¬(x = (j : Int)))).map
            (fun x => if (j : Int) < x then x - 1 else x)) =
          [((k - 1 : Nat) : Int)] := by
        have h1 : (([k].map (fun (k : Nat) => (k : Int))).filter
            (fun x => ¬(x = (j : Int)))) = [((k : Nat) : Int)] := by
          simp only [List.map_cons, List.map_nil]
          rw [List.filter_cons_of_pos (by simp only [decide_eq_true_eq]; omega)]
          rfl
        rw [h1, List.map_cons, List.map_nil, if_pos (by omega)]
        congr 1
        omega
      rw [hB]
      rw [show k + 1 - 1 = (k - 1) + 1 by omega, List.range_succ, List.map_append]
      congr 2

theorem WF_list_remove {σ σ' : DBState} {name : String} {i : Int} (hWF : WF σ)
    (h : list_remove σ name i = .ok σ') : WF σ' := by
  apply WF_of_counts
  intro nm
  by_cases hnm : nm = name
  · subst hnm
    obtain ⟨j, hj, hjlt⟩ := row_exists_bound hWF (list_remove_any h)
    subst hj
    refine ⟨listCount σ nm - 1, ?_⟩
    rw [listIndices_remove_self h]
    exact (((WF_perm hWF nm).filter _).map _).trans
      (by rw [dec_filter_range _ j hjlt])
  · exact ⟨listCount σ nm, by rw [listIndices_remove_other hnm h]; exact WF_perm hWF nm⟩

theorem listCount_remove_self {σ σ' : DBState} {name : String} {i : Int} (hWF : WF σ)
    (h : list_remove σ name i = .ok σ') :
    listCount σ' name = listCount σ name - 1 := by
  obtain ⟨j, hj, hjlt⟩ := row_exists_bound hWF (list_remove_any h)
  subst hj
  rw [← listIndices_length, listIndices_remove_self h]
  rw [(((WF_perm hWF name).filter _).map _).length_eq,
    dec_filter_range _ j hjlt]
  simp

/-! ### Effect of the operations on the ordered rows -/

theorem sortedRows_pairwise_lt {σ : DBState} (hWF : WF σ) (name : String) :
    (sortedRows σ name).Pairwise rowLt :=
  pairwise_lt_of_le_nodup (sortedRows_sorted σ name)
    (by rw [sortedRows_map_index hWF]; exact range_map_nodup _)

theorem sortedRows_getElem_index {σ : DBState} (hWF : WF σ) (name : String)
    (t : Nat) (h : t < (sortedRows σ name).length) :
    (sortedRows σ name)[t].item_index = (t : Int) := by
  have h1 := sortedRows_map_index hWF name
  have h2 : ((sortedRows σ name).map (fun r => r.item_index))[t]? =
      ((List.range (listCount σ name)).map (fun (k : Nat) => (k : Int)))[t]? := by
    rw [h1]
  have ht : t < listCount σ name := by
    rw [← sortedRows_length σ name]
    exact h
  rw [List.getElem?_map, List.getElem?_map, List.getElem?_eq_getElem h,
    List.getElem?_eq_getElem (by simpa using ht)] at h2
  simp only [List.getElem_range] at h2
  simpa using h2

theorem sortedRows_mem_name {σ : DBState} {name : String} {r : ListRow}
    (hr : r ∈ sortedRows σ name) : r.list_name = name := by
  have h1 := (sortedRows_perm σ name).mem_iff.mp hr
  simpa using (List.mem_filter.mp h1).2

theorem rows_idx_unique {σ : DBState} (hWF : WF σ) (name : String) :
    ∀ ⦃r1 : ListRow⦄, r1 ∈ σ.rows.filter (fun r => r.list_name = name) →
    ∀ ⦃r2 : ListRow⦄, r2 ∈ σ.rows.filter (fun r => r.list_name = name) →
      r1.item_index = r2.item_index → r1 = r2 := by
  apply List.inj_on_of_nodup_map
  have h1 : ((σ.rows.filter (fun r => r.list_name = name)).map
      (fun r => r.item_index)).Perm
      ((sortedRows σ name).map (fun r => r.item_index)) :=
    ((sortedRows_perm σ name).symm).map _
  rw [h1.nodup_iff, sortedRows_map_index hWF]
  exact range_map_nodup _

/-! ### Decoding lemmas -/

theorem decodeVals_nil_ok {s : List PyVal} (h : decodeVals [] = .ok s) : s = [] := by
  simp only [decodeVals, Except.ok.injEq] at h
  exact h.symm

theorem decodeVals_cons_ok {x : String} {t : List String} {s : List PyVal}
    (h : decodeVals (x :: t) = .ok s) :
    ∃ v s', loads x = some v ∧ decodeVals t = .ok s' ∧ s = v :: s' := by
  rw [show decodeVals (x :: t) =
    (match loads x with
     | none => .error .decodeError
     | some v => (decodeVals t).map (fun l => v :: l)) from rfl] at h
  cases hx : loads x with
  | none =>
    rw [hx] at h
    cases h
  | some v =>
    rw [hx] at h
    cases ht : decodeVals t with
    | error e =>
      rw [ht] at h
      simp only [Except.map] at h
      exact Except.noConfusion h
    | ok s2 =>
      rw [ht] at h
      simp only [Except.map, Except.ok.injEq] at h
      exact ⟨v, s2, rfl, rfl, h.symm⟩

theorem decodeVals_cons_of {x : String} {t : List String} {v : PyVal} {s : List PyVal}
    (hx : loads x = some v) (ht : decodeVals t = .ok s) :
    decodeVals (x :: t) = .ok (v :: s) := by
  rw [show decodeVals (x :: t) =
    (match loads x with
     | none => .error .decodeError
     | some w => (decodeVals t).map (fun l => w :: l)) from rfl, hx, ht]
  rfl

theorem decodeVals_length {l : List String} {s : List PyVal}
    (h : decodeVals l = .ok s) : s.length = l.length := by
  induction l generalizing s with
  | nil => simp [decodeVals_nil_ok h]
  | cons x t ih =>
    obtain ⟨v, s2, _, ht, rfl⟩ := decodeVals_cons_ok h
    simp [ih ht]

theorem decodeVals_snoc {l : List String} {s : List PyVal} {x : String} {v : PyVal}
    (h : decodeVals l = .ok s) (hx : loads x = some v) :
    decodeVals (l ++ [x]) = .ok (s ++ [v]) := by
  induction l generalizing s with
  | nil =>
    rw [decodeVals_nil_ok h]
    exact decodeVals_cons_of hx rfl
  | cons y t ih =>
    obtain ⟨w, s2, hy, ht, rfl⟩ := decodeVals_cons_ok h
    exact decodeVals_cons_of hy (ih ht)

theorem decodeVals_set {l : List String} {s : List PyVal} {x : String} {v : PyVal}
    (h : decodeVals l = .ok s) (hx : loads x = some v) (j : Nat) :
    decodeVals (l.set j x) = .ok (s.set j v) := by
  induction l generalizing s j with
  | nil =>
    have hs := decodeVals_nil_ok h
    subst hs
    simp [decodeVals]
  | cons y t ih =>
    obtain ⟨w, s2, hy, ht, rfl⟩ := decodeVals_cons_ok h
    cases j with
    | zero =>
      simp only [List.set_cons_zero]
      exact decodeVals_cons_of hx ht
    | succ j =>
      simp only [List.set_cons_succ]
      exact decodeVals_cons_of hy (ih ht j)

theorem decodeVals_eraseIdx {l : List String} {s : List PyVal}
    (h : decodeVals l = .ok s) (j : Nat) :
    decodeVals (l.eraseIdx j) = .ok (s.eraseIdx j) := by
  induction l generalizing s j with
  | nil =>
    have hs := decodeVals_nil_ok h
    subst hs
    simp [decodeVals]
  | cons y t ih =>
    obtain ⟨w, s2, hy, ht, rfl⟩ := decodeVals_cons_ok h
    cases j with
    | zero =>
      simpa using ht
    | succ j =>
      simp only [List.eraseIdx_cons_succ]
      exact decodeVals_cons_of hy (ih ht j)

theorem list_get_length {σ : DBState} {name : String} {s : List PyVal}
    (h : list_get σ name = .ok s) : s.length = listCount σ name := by
  unfold list_get at h
  rw [decodeVals_length h, List.length_map, sortedRows_length]

/-! ### `list_append` and `list_get` -/

theorem sortedRows_append {σ : DBState} (hWF : WF σ) (name : String) (item : PyVal) :
    sortedRows { σ with rows := σ.rows ++
        [⟨name, (listCount σ name : Int), dumps item⟩] } name =
      sortedRows σ name ++ [⟨name, (listCount σ name : Int), dumps item⟩] := by
  apply sortedRows_eq
  · show ((σ.rows ++ [(⟨name, (listCount σ name : Int), dumps item⟩ : ListRow)]).filter
      (fun r => r.list_name = name)).Perm _
    rw [List.filter_append]
    have h1 : ([(⟨name, (listCount σ name : Int), dumps item⟩ : ListRow)].filter
        (fun r => r.list_name = name)) =
        [⟨name, (listCount σ name : Int), dumps item⟩] := by
      simp
    rw [h1]
    exact (sortedRows_perm σ name).symm.append (List.Perm.refl _)
  · rw [List.pairwise_append]
    refine ⟨sortedRows_pairwise_lt hWF name, List.pairwise_singleton _ _, ?_⟩
    intro a ha b hb
    simp only [List.mem_singleton] at hb
    subst hb
    show a.item_index < (listCount σ name : Int)
    have hmem : a.item_index ∈ (sortedRows σ name).map (fun r => r.item_index) :=
      List.mem_map.mpr ⟨a, ha, rfl⟩
    rw [sortedRows_map_index hWF] at hmem
    simp only [List.mem_map, List.mem_range] at hmem
    obtain ⟨k, hk, hke⟩ := hmem
    omega

theorem list_get_append {σ : DBState} (hWF : WF σ) {name : String} {s : List PyVal}
    (hs : list_get σ name = .ok s) (item : PyVal) :
    list_get { σ with rows := σ.rows ++
        [⟨name, (listCount σ name : Int), dumps item⟩] } name = .ok (s ++ [item]) := by
  unfold list_get at hs ⊢
  rw [sortedRows_append hWF, List.map_append]
  exact decodeVals_snoc hs (loads_dumps item)

theorem list_append_effect {σ : DBState} (hWF : WF σ) {name : String} {s : List PyVal}
    (hs : list_get σ name = .ok s) (item : PyVal) :
    ∃ σ2, list_append σ name item = .ok σ2 ∧ WF σ2 ∧
      list_get σ2 name = .ok (s ++ [item]) ∧
      listCount σ2 name = listCount σ name + 1 := by
  refine ⟨_, list_append_ok hWF name item, WF_append hWF name item,
    list_get_append hWF hs item, listCount_append_self σ name _ _⟩

theorem appendNones_effect {σ : DBState} (hWF : WF σ) {name : String} {s : List PyVal}
    (hs : list_get σ name = .ok s) (k : Nat) :
    ∃ σ2, appendNones name k σ = .ok σ2 ∧ WF σ2 ∧
      list_get σ2 name = .ok (s ++ List.replicate k PyVal.null) ∧
      listCount σ2 name = listCount σ name + k := by
  induction k generalizing σ s with
  | zero => exact ⟨σ, rfl, hWF, by simpa using hs, rfl⟩
  | succ k ih =>
    obtain ⟨σ1, h1, hWF1, hget1, hcount1⟩ := list_append_effect hWF hs PyVal.null
    obtain ⟨σ2, h2, hWF2, hget2, hcount2⟩ := ih hWF1 hget1
    refine ⟨σ2, ?_, hWF2, ?_, ?_⟩
    · rw [show appendNones name (Nat.succ k) σ =
        (match list_append σ name PyVal.null with
         | .error e => .error e
         | .ok σ2 => appendNones name k σ2) from rfl, h1]
      exact h2
    · rw [hget2]
      simp [List.replicate_succ]
    · omega

/-! ### `list_set` -/

theorem list_set_hit {σ : DBState} {name : String} {i : Int} (item : PyVal)
    (hany : σ.rows.any (fun r => r.list_name = name ∧ r.item_index = i) = true) :
    list_set σ name i item = .ok { σ with rows := σ.rows.map (fun r =>
      if r.list_name = name ∧ r.item_index = i then
        { r with item_value := dumps item }
      else r) } := by
  unfold list_set
  rw [if_pos hany]

theorem row_exists_of_lt {σ : DBState} (hWF : WF σ) (name : String) {j : Nat}
    (hj : j < listCount σ name) :
    σ.rows.any (fun r => r.list_name = name ∧ r.item_index = (j : Int)) = true := by
  have hmem : ((j : Int)) ∈ listIndices σ name := by
    rw [(WF_perm hWF name).mem_iff]
    simp only [List.mem_map, List.mem_range]
    exact ⟨j, hj, rfl⟩
  rw [listIndices_def] at hmem
  simp only [List.mem_map] at hmem
  obtain ⟨r, hr, hidx⟩ := hmem
  simp only [List.any_eq_true, decide_eq_true_eq]
  refine ⟨r, (List.mem_filter.mp hr).1, ?_, hidx⟩
  simpa using (List.mem_filter.mp hr).2

theorem listIndices_map_row_preserve {σ : DBState} {f : ListRow → ListRow}
    (hf1 : ∀ r, (f r).list_name = r.list_name)
    (hf2 : ∀ r, (f r).item_index = r.item_index) (nm : String) :
    listIndices { σ with rows := σ.rows.map f } nm = listIndices σ nm := by
  show ((σ.rows.map f).filter (fun r => r.list_name = nm)).map _ = _
  rw [filter_name_map_preserve hf1, List.map_map]
  apply List.map_congr_left
  intro r _
  simp only [Function.comp_apply, hf2 r]

theorem WF_list_set_state {σ : DBState} (hWF : WF σ) (name : String) (i : Int)
    (item : PyVal) :
    WF { σ with rows := σ.rows.map (fun r =>
      if r.list_name = name ∧ r.item_index = i then
        { r with item_value := dumps item }
      else r) } := by
  apply WF_of_counts
  intro nm
  refine ⟨listCount σ nm, ?_⟩
  rw [listIndices_map_row_preserve (fun r => by split_ifs <;> rfl)
    (fun r => by split_ifs <;> rfl)]
  exact WF_perm hWF nm

theorem sortedRows_list_set {σ : DBState} (hWF : WF σ) (name : String) (i : Int)
    (item : PyVal) :
    sortedRows { σ with rows := σ.rows.map (fun r =>
        if r.list_name = name ∧ r.item_index = i then
          { r with item_value := dumps item }
        else r) } name =
      (sortedRows σ name).map (fun r =>
        if r.list_name = name ∧ r.item_index = i then
          { r with item_value := dumps item }
        else r) := by
  apply sortedRows_eq
  · show ((σ.rows.map (fun r =>
        if r.list_name = name ∧ r.item_index = i then
          { r with item_value := dumps item }
        else r)).filter (fun r => r.list_name = name)).Perm _
    rw [filter_name_map_preserve (fun (r : ListRow) => by split_ifs <;> rfl)]
    exact (sortedRows_perm σ name).symm.map _
  · refine (sortedRows_pairwise_lt hWF name).map _ ?_
    intro a b hab
    show rowLt _ _
    unfold rowLt at hab ⊢
    split_ifs <;> simpa using hab

theorem list_get_list_set {σ : DBState} (hWF : WF σ) {name : String} {s : List PyVal}
    (hs : list_get σ name = .ok s) {j : Nat} (hj : j < listCount σ name)
    (item : PyVal) :
    list_get { σ with rows := σ.rows.map (fun r =>
        if r.list_name = name ∧ r.item_index = ((j : Nat) : Int) then
          { r with item_value := dumps item }
        else r) } name = .ok (s.set j item) := by
  unfold list_get at hs ⊢
  rw [sortedRows_list_set hWF name ((j : Nat) : Int) item, List.map_map]
  have key : (sortedRows σ name).map
      ((fun r : ListRow => r.item_value) ∘ (fun r =>
        if r.list_name = name ∧ r.item_index = ((j : Nat) : Int) then
          { r with item_value := dumps item }
        else r)) =
      ((sortedRows σ name).map (fun r => r.item_value)).set j (dumps item) := by
    apply List.ext_getElem
    · simp [List.length_set]
    · intro t h1 h2
      have htL : t < (sortedRows σ name).length := by simpa using h1
      rw [List.getElem_map, List.getElem_set]
      simp only [Function.comp_apply]
      have hname : (sortedRows σ name)[t].list_name = name :=
        sortedRows_mem_name (List.getElem_mem htL)
      have hidx : (sortedRows σ name)[t].item_index = (t : Int) :=
        sortedRows_getElem_index hWF name t htL
      by_cases hteq : j = t
      · subst hteq
        rw [if_pos ⟨hname, hidx⟩, if_pos rfl]
      · rw [if_neg, if_neg hteq, List.getElem_map]
        intro hcon
        rw [hidx] at hcon
        exact hteq (by exact_mod_cast hcon.2.symm)
  rw [key]
  exact decodeVals_set hs (loads_dumps item) j

theorem list_set_effect {σ : DBState} (hWF : WF σ) {name : String} {s : List PyVal}
    (hs : list_get σ name = .ok s) {j : Nat} (hj : j < listCount σ name)
    (item : PyVal) :
    ∃ σ2, list_set σ name ((j : Nat) : Int) item = .ok σ2 ∧ WF σ2 ∧
      list_get σ2 name = .ok (s.set j item) ∧
      listCount σ2 name = listCount σ name := by
  refine ⟨_, list_set_hit item (row_exists_of_lt hWF name hj),
    WF_list_set_state hWF name _ item, list_get_list_set hWF hs hj item, ?_⟩
  rw [← listIndices_length,
    listIndices_map_row_preserve (fun r => by split_ifs <;> rfl)
      (fun r => by split_ifs <;> rfl),
    listIndices_length]

/-! ### `list_remove` and `list_get` -/

theorem filter_name_remove {σ σ' : DBState} {name : String} {i : Int}
    (h : list_remove σ name i = .ok σ') :
    σ'.rows.filter (fun r => r.list_name = name) =
      ((σ.rows.filter (fun r => r.list_name = name)).filter
        (fun r => ¬(r.item_index = i))).map
      (fun r => if r.list_name = name ∧ i < r.item_index then
        { r with item_index := r.item_index - 1 }
      else r) := by
  obtain ⟨-, -, hrows⟩ := list_remove_rows h
  rw [hrows, filter_name_map_preserve (fun r => by split_ifs <;> rfl)]
  congr 1
  rw [List.filter_filter, List.filter_filter]
  apply List.filter_congr
  intro r _
  by_cases hn : r.list_name = name <;> by_cases hidx : r.item_index = i <;>
    simp [hn, hidx]

theorem list_remove_oob {σ : DBState} (hWF : WF σ) (name : String) {i : Int}
    (hge : (listCount σ name : Int) ≤ i) :
    list_remove σ name i = .error .indexError := by
  unfold list_remove
  rw [if_neg]
  intro hany
  obtain ⟨j, hj, hlt⟩ := row_exists_bound hWF hany
  omega

theorem list_get_remove {σ σ' : DBState} (hWF : WF σ) {name : String} {j : Nat}
    (h : list_remove σ name ((j : Nat) : Int) = .ok σ') {s : List PyVal}
    (hs : list_get σ name = .ok s) :
    list_get σ' name = .ok (s.eraseIdx j) := by
  have hWF' : WF σ' := WF_list_remove hWF h
  have hjn : j < listCount σ name := by
    obtain ⟨j2, hj2, hlt⟩ := row_exists_bound hWF (list_remove_any h)
    have : j2 = j := by exact_mod_cast hj2
    omega
  have hcount' : listCount σ' name = listCount σ name - 1 := listCount_remove_self hWF h
  unfold list_get at hs ⊢
  have key : (sortedRows σ' name).map (fun r => r.item_value) =
      ((sortedRows σ name).map (fun r => r.item_value)).eraseIdx j := by
    apply List.ext_getElem
    · rw [List.length_map, sortedRows_length, hcount', List.length_eraseIdx]
      rw [List.length_map, sortedRows_length]
      rw [if_pos hjn]
    · intro t h1 h2
      have htL' : t < (sortedRows σ' name).length := by simpa using h1
      have htn : t < listCount σ name - 1 := by
        rw [List.length_map, sortedRows_length, hcount'] at h1
        exact h1
      rw [List.getElem_map, List.getElem_eraseIdx]
      -- identify the row of σ' at sorted position t
      have hmem' : (sortedRows σ' name)[t] ∈
          σ'.rows.filter (fun r => r.list_name = name) :=
        (sortedRows_perm σ' name).mem_iff.mp (List.getElem_mem htL')
      rw [filter_name_remove h] at hmem'
      simp only [List.mem_map] at hmem'
      obtain ⟨r, hr, hgr⟩ := hmem'
      have hrname : r.list_name = name := by
        simpa using (List.mem_filter.mp (List.mem_of_mem_filter hr)).2
      have hrne : ¬(r.item_index = ((j : Nat) : Int)) := by
        simpa using (List.mem_filter.mp hr).2
      have hrmem : r ∈ σ.rows.filter (fun r => r.list_name = name) :=
        List.mem_of_mem_filter hr
      have hidx' : (sortedRows σ' name)[t].item_index = (t : Int) :=
        sortedRows_getElem_index hWF' name t htL'
      split
      · -- t < j : the row at t is unchanged
        next hlt2 =>
        have hLt : t < (sortedRows σ name).length := by
          rw [sortedRows_length]
          omega
        have hgoal : r = (sortedRows σ name)[t] := by
          apply rows_idx_unique hWF name hrmem
            ((sortedRows_perm σ name).mem_iff.mp (List.getElem_mem hLt))
          rw [sortedRows_getElem_index hWF name t hLt]
          -- r.item_index = ↑t
          rw [← hgr] at hidx'
          by_cases hcase : r.list_name = name ∧ ((j : Nat) : Int) < r.item_index
          · rw [if_pos hcase] at hidx'
            simp only at hidx'
            exfalso
            have := hcase.2
            omega
          · rw [if_neg hcase] at hidx'
            exact hidx'
        rw [← hgr]
        have hval : ((if r.list_name = name ∧ ((j : Nat) : Int) < r.item_index then
            { r with item_index := r.item_index - 1 }
          else r) : ListRow).item_value = r.item_value := by
          split_ifs <;> rfl
        rw [hval, hgoal]
        rw [List.getElem_map]
      · -- j ≤ t : the row came from position t+1, decremented
        next hge2 =>
        have hLt : t + 1 < (sortedRows σ name).length := by
          rw [sortedRows_length]
          omega
        have hgoal : r = (sortedRows σ name)[t + 1] := by
          apply rows_idx_unique hWF name hrmem
            ((sortedRows_perm σ name).mem_iff.mp (List.getElem_mem hLt))
          rw [sortedRows_getElem_index hWF name (t + 1) hLt]
          rw [← hgr] at hidx'
          by_cases hcase : r.list_name = name ∧ ((j : Nat) : Int) < r.item_index
          · rw [if_pos hcase] at hidx'
            simp only at hidx'
            omega
          · rw [if_neg hcase] at hidx'
            exfalso
            have hcon : ¬(((j : Nat) : Int) < r.item_index) := by
              intro hcc
              exact hcase ⟨hrname, hcc⟩
            rw [hidx'] at hrne hcon
            omega
        rw [← hgr]
        have hval : ((if r.list_name = name ∧ ((j : Nat) : Int) < r.item_index then
            { r with item_index := r.item_index - 1 }
          else r) : ListRow).item_value = r.item_value := by
          split_ifs <;> rfl
        rw [hval, hgoal]
        rw [List.getElem_map]
  rw [key]
  exact decodeVals_eraseIdx hs j

/-! ### `EasyDBList.__setitem__` -/

theorem view_setitem_extend {σ : DBState} (hWF : WF σ) {name : String}
    {s : List PyVal} (hs : list_get σ name = .ok s) {i : Nat}
    (hi : listCount σ name ≤ i) (item : PyVal) :
    ∃ σ2, view_setitem σ name ((i : Nat) : Int) item = .ok σ2 ∧ WF σ2 ∧
      list_get σ2 name =
        .ok (s ++ List.replicate (i - listCount σ name) PyVal.null ++ [item]) ∧
      listCount σ2 name = i + 1 := by
  simp only [view_setitem, list_len]
  rw [if_pos (by exact_mod_cast hi)]
  have htn : (((i : Nat) : Int) - (listCount σ name : Int)).toNat =
      i - listCount σ name := by omega
  rw [htn]
  obtain ⟨σ1, h1, hWF1, hget1, hcount1⟩ :=
    appendNones_effect hWF hs (i - listCount σ name)
  rw [h1]
  obtain ⟨σ2, h2, hWF2, hget2, hcount2⟩ := list_append_effect hWF1 hget1 item
  exact ⟨σ2, h2, hWF2, by rw [hget2], by omega⟩

theorem view_setitem_inplace {σ : DBState} (hWF : WF σ) {name : String}
    {s : List PyVal} (hs : list_get σ name = .ok s) {i : Nat}
    (hi : i < listCount σ name) (item : PyVal) :
    ∃ σ2, view_setitem σ name ((i : Nat) : Int) item = .ok σ2 ∧ WF σ2 ∧
      list_get σ2 name = .ok (s.set i item) ∧
      listCount σ2 name = listCount σ name := by
  simp only [view_setitem, list_len]
  rw [if_neg (by exact_mod_cast Nat.not_le.mpr hi)]
  exact list_set_effect hWF hs hi item

/-! ### Snapshot and router support -/

theorem dictInsert_fresh {d : List (String × PyVal)} {k : String} (v : PyVal)
    (h : d.any (fun p => p.1 = k) = false) : dictInsert d k v = d ++ [(k, v)] := by
  simp only [dictInsert, h]
  rfl

theorem listFold_cons {σ : DBState} {n : String} {vs : List PyVal}
    (h : list_get σ n = .ok vs) (t : List String) (acc : List (String × PyVal)) :
    listFold σ (n :: t) acc = listFold σ t (dictInsert acc n (PyVal.list vs)) := by
  rw [show listFold σ (n :: t) acc =
    (match list_get σ n with
     | .error e => .error e
     | .ok vs => listFold σ t (dictInsert acc n (PyVal.list vs))) from rfl, h]

theorem tableFold_cons_foreign {t : ForeignTable} {ds : List (List (String × PyVal))}
    (hn1 : ¬(t.name = "kv_store")) (hn2 : ¬(t.name = "list_store"))
    (hn3 : ¬(t.name = "sqlite_sequence")) (hf : t.readFails = false)
    (hds : rowsDicts t.columns t.cells = some ds)
    (ts : List ForeignTable) (acc : List (String × PyVal)) :
    tableFold acc (t :: ts) =
      tableFold (dictInsert acc t.name (PyVal.list (ds.map PyVal.dict))) ts := by
  rw [show tableFold acc (t :: ts) =
    (if t.name = "kv_store" ∨ t.name = "list_store" ∨ t.name = "sqlite_sequence" then
      tableFold acc ts
    else if t.readFails then .ok acc
    else
      match rowsDicts t.columns t.cells with
      | none => .error .indexError
      | some ds =>
        tableFold (dictInsert acc t.name (PyVal.list (ds.map PyVal.dict))) ts)
    from rfl]
  rw [if_neg (by simp [hn1, hn2, hn3]), hf, if_neg (by simp), hds]

theorem tableFold_cons_fails {t : ForeignTable}
    (hn1 : ¬(t.name = "kv_store")) (hn2 : ¬(t.name = "list_store"))
    (hn3 : ¬(t.name = "sqlite_sequence")) (hf : t.readFails = true)
    (ts : List ForeignTable) (acc : List (String × PyVal)) :
    tableFold acc (t :: ts) = .ok acc := by
  rw [show tableFold acc (t :: ts) =
    (if t.name = "kv_store" ∨ t.name = "list_store" ∨ t.name = "sqlite_sequence" then
      tableFold acc ts
    else if t.readFails then .ok acc
    else
      match rowsDicts t.columns t.cells with
      | none => .error .indexError
      | some ds =>
        tableFold (dictInsert acc t.name (PyVal.list (ds.map PyVal.dict))) ts)
    from rfl]
  rw [if_neg (by simp [hn1, hn2, hn3]), hf, if_pos rfl]

theorem get_key_value_absent {σ : DBState} {name : String}
    (h : ∀ p ∈ σ.kv, ¬(p.1 = name)) :
    get_key_value σ name = .error .keyError := by
  unfold get_key_value
  rw [List.find?_eq_none.mpr (fun p hp => by simpa using h p hp)]

theorem getattrModel_all_data (σ : DBState) :
    getattrModel σ "all_data" = (get_all_data σ).map AttrRead.allData := by
  simp [getattrModel]

theorem getattrModel_html_report (σ : DBState) :
    getattrModel σ "html_report" =
      (generate_report σ).map AttrRead.htmlReport := by
  simp [getattrModel]

theorem getattrModel_list {σ : DBState} {name : String}
    (h1 : ¬(name = "all_data")) (h2 : ¬(name = "html_report"))
    (h3 : is_list σ name = true) :
    getattrModel σ name = .ok (.listView name) := by
  simp [getattrModel, h1, h2, h3]

theorem getattrModel_absent {σ : DBState} {name : String}
    (h1 : ¬(name = "all_data")) (h2 : ¬(name = "html_report"))
    (h3 : is_list σ name = false)
    (h4 : get_key_value σ name = .error .keyError) :
    getattrModel σ name = .error .attributeError := by
  simp [getattrModel, h1, h2, h3, h4]

theorem setattrModel_scalar {σ : DBState} {name : String} {v : PyVal}
    (h1 : startsUnderscore name = false) (h2 : ¬(name = "db_name"))
    (h3 : ∀ xs, ¬(v = .list xs)) :
    setattrModel σ name v = set_key_value σ name v := by
  unfold setattrModel
  rw [if_neg (by simp [h1, h2])]
  cases v with
  | list xs => exact absurd rfl (h3 xs)
  | null => rfl
  | bool b => rfl
  | int k => rfl
  | str s => rfl
  | dict fs => rfl

theorem setattrModel_list {σ : DBState} {name : String} (items : List PyVal)
    (h1 : startsUnderscore name = false) (h2 : ¬(name = "db_name")) :
    setattrModel σ name (.list items) = set_list σ name items := by
  unfold setattrModel
  rw [if_neg (by simp [h1, h2])]

theorem is_list_rows_eq {σ σ' : DBState} (h : σ'.rows = σ.rows) (nm : String) :
    is_list σ' nm = is_list σ nm := by
  simp [is_list, listCount, h]

theorem is_list_set_list_nil (σ : DBState) (name : String) :
    is_list (set_list σ name []) name = false := by
  simp [is_list, listCount_set_list_self]

/-! ### The claims -/

/-- C1: the spec requires a table-enumeration failure on one foreign table
to be swallowed per-table, leaving every other foreign table's rows in the
snapshot.  The code wraps the whole loop in one `try/except`, so a failure
on the first table aborts the loop: with a broken table followed by a
healthy one the snapshot is empty, although the healthy table alone
produces its row-dictionaries.  This exhibits the code bug. -/
theorem claimC1 :
    get_all_data stateC1 = .ok [] ∧
    get_all_data stateC1b =
      .ok [("healthy", .list [.dict [("a", .int 1)]])] ∧
    stateC1.tables = [brokenTable, healthyTable] ∧
    healthyTable.readFails = false :=
  ⟨rfl, rfl, rfl, rfl⟩

/-- C2: on a well-formed store, `list_append` inserts at index = current
count and preserves the contiguity invariant, `_set_list` rebuilds the list
at indices `0..len-1` and preserves it, and any successful `list_remove`
preserves it. -/
theorem claimC2 (σ : DBState) (hWF : WF σ) (name : String) (item : PyVal)
    (items : List PyVal) (i : Int) :
    list_append σ name item = .ok { σ with rows := σ.rows ++
      [⟨name, (listCount σ name : Int), dumps item⟩] } ∧
    WF { σ with rows := σ.rows ++
      [⟨name, (listCount σ name : Int), dumps item⟩] } ∧
    WF (set_list σ name items) ∧
    (∀ σ2, list_remove σ name i = .ok σ2 → WF σ2) :=
  ⟨list_append_ok hWF name item, WF_append hWF name item,
    WF_set_list hWF name items, fun _ h => WF_list_remove hWF h⟩

theorem claimC2_witness :
    WF stateW ∧
    (list_append stateW "l" .null = .ok { stateW with rows := stateW.rows ++
      [⟨"l", (listCount stateW "l" : Int), dumps .null⟩] } ∧
    WF { stateW with rows := stateW.rows ++
      [⟨"l", (listCount stateW "l" : Int), dumps .null⟩] } ∧
    WF (set_list stateW "l" [.int 7]) ∧
    (∀ σ2, list_remove stateW "l" 0 = .ok σ2 → WF σ2)) :=
  ⟨by decide, claimC2 stateW (by decide) "l" .null [.int 7] 0⟩

/-- C3: scalar round-trip — `_set_key_value` then `_get_key_value` returns
the stored value, because `json.loads ∘ json.dumps` is the identity on the
modelled JSON values. -/
theorem claimC3 (σ : DBState) (k : String) (v : PyVal) :
    get_key_value (set_key_value σ k v) k = .ok v ∧ loads (dumps v) = some v :=
  ⟨get_key_value_set σ k v, loads_dumps v⟩

/-- C4: `EasyDBList.__setitem__` with `i ≥ length` appends `None` for the
missing indices and the item last, giving length `i + 1`; with `i < length`
it replaces the element in place, keeping the length. -/
theorem claimC4 (σ : DBState) (name : String) (i : Nat) (item : PyVal)
    (s : List PyVal) (hWF : WF σ) (hs : list_get σ name = .ok s) :
    (list_len σ name ≤ i →
      ∃ σ2, view_setitem σ name ((i : Nat) : Int) item = .ok σ2 ∧
        list_get σ2 name =
          .ok (s ++ List.replicate (i - list_len σ name) PyVal.null ++ [item]) ∧
        list_len σ2 name = i + 1) ∧
    (i < list_len σ name →
      ∃ σ2, view_setitem σ name ((i : Nat) : Int) item = .ok σ2 ∧
        list_get σ2 name = .ok (s.set i item) ∧
        list_len σ2 name = list_len σ name) := by
  constructor
  · intro hi
    obtain ⟨σ2, h1, _, h3, h4⟩ := view_setitem_extend hWF hs hi item
    exact ⟨σ2, h1, h3, h4⟩
  · intro hi
    obtain ⟨σ2, h1, _, h3, h4⟩ := view_setitem_inplace hWF hs hi item
    exact ⟨σ2, h1, h3, h4⟩

theorem claimC4_witness :
    (WF stateW ∧ list_get stateW "l" = .ok [.int 1, .int 2]) ∧
    ((list_len stateW "l" ≤ 5 →
      ∃ σ2, view_setitem stateW "l" ((5 : Nat) : Int) (.int 9) = .ok σ2 ∧
        list_get σ2 "l" = .ok ([.int 1, .int 2] ++
          List.replicate (5 - list_len stateW "l") PyVal.null ++ [.int 9]) ∧
        list_len σ2 "l" = 5 + 1) ∧
    (5 < list_len stateW "l" →
      ∃ σ2, view_setitem stateW "l" ((5 : Nat) : Int) (.int 9) = .ok σ2 ∧
        list_get σ2 "l" = .ok ([.int 1, .int 2].set 5 (.int 9)) ∧
        list_len σ2 "l" = list_len stateW "l")) :=
  ⟨⟨by decide, rfl⟩, claimC4 stateW "l" 5 (.int 9) [.int 1, .int 2] (by decide) rfl⟩

/-- C5: on a well-formed store, removing a valid index `i` yields the
original decoded sequence with element `i` removed and the later elements
shifted down; an out-of-range index raises `IndexError` and changes
nothing. -/
theorem claimC5 (σ : DBState) (name : String) (i : Nat) (s : List PyVal)
    (hWF : WF σ) (hs : list_get σ name = .ok s) :
    (i < s.length →
      ∃ σ2, list_remove σ name ((i : Nat) : Int) = .ok σ2 ∧
        list_get σ2 name = .ok (s.eraseIdx i) ∧ WF σ2) ∧
    (s.length ≤ i →
      list_remove σ name ((i : Nat) : Int) = .error .indexError) := by
  have hlen := list_get_length hs
  constructor
  · intro hi
    have hcnt : i < listCount σ name := by omega
    have hany := row_exists_of_lt hWF name hcnt
    have hstep : ∃ σ2, list_remove σ name ((i : Nat) : Int) = .ok σ2 := by
      unfold list_remove
      rw [if_pos hany]
      exact ⟨_, rfl⟩
    obtain ⟨σ2, hσ2⟩ := hstep
    exact ⟨σ2, hσ2, list_get_remove hWF hσ2 hs, WF_list_remove hWF hσ2⟩
  · intro hi
    exact list_remove_oob hWF name (by omega)

theorem claimC5_witness :
    (WF stateW ∧ list_get stateW "l" = .ok [.int 1, .int 2]) ∧
    ((0 < ([PyVal.int 1, PyVal.int 2] : List PyVal).length →
      ∃ σ2, list_remove stateW "l" ((0 : Nat) : Int) = .ok σ2 ∧
        list_get σ2 "l" = .ok ([PyVal.int 1, PyVal.int 2].eraseIdx 0) ∧ WF σ2) ∧
    (([PyVal.int 1, PyVal.int 2] : List PyVal).length ≤ 0 →
      list_remove stateW "l" ((0 : Nat) : Int) = .error .indexError)) :=
  ⟨⟨by decide, rfl⟩, claimC5 stateW "l" 0 [.int 1, .int 2] (by decide) rfl⟩

/-- C6 (corrected): on a store with no scalars, two lists and one 15-row
foreign table, the report shows the table section with its first 10 rows
and a 15-row truncation notice, and both lists appear among the non-tabular
entries — provided the two list values are not themselves classified as
tabular (a list whose first element is an object is misclassified, see the
counterexample) and no name collisions occur. -/
theorem claimC6 (σ : DBState) (t : ForeignTable) (n1 n2 : String)
    (vs1 vs2 : List PyVal) (ds : List (List (String × PyVal)))
    (hkv : σ.kv = [])
    (htab : σ.tables = [t])
    (hd : distinctNames σ.rows = [n1, n2])
    (hne : ¬(n1 = n2))
    (hg1 : list_get σ n1 = .ok vs1) (hg2 : list_get σ n2 = .ok vs2)
    (ht1 : ¬(t.name = "kv_store")) (ht2 : ¬(t.name = "list_store"))
    (ht3 : ¬(t.name = "sqlite_sequence")) (htf : t.readFails = false)
    (hds : rowsDicts t.columns t.cells = some ds) (hlen : ds.length = 15)
    (htn1 : ¬(n1 = t.name)) (htn2 : ¬(n2 = t.name))
    (hv1 : isTabular (PyVal.list vs1) = false)
    (hv2 : isTabular (PyVal.list vs2) = false) :
    generate_report σ = .ok
      { easydbEntries := [(n1, .list vs1), (n2, .list vs2)]
        tableSections := [{
          name := t.name
          headerCount := 15
          shown := (ds.map PyVal.dict).take 10
          truncNotice := some 15 }] } := by
  have hsnap : get_all_data σ = .ok
      [(n1, .list vs1), (n2, .list vs2),
        (t.name, .list (ds.map PyVal.dict))] := by
    unfold get_all_data
    rw [hkv]
    show ((match listFold σ (distinctNames σ.rows) [] with
      | .error e => .error e
      | .ok acc2 => tableFold acc2 σ.tables) :
        Except Err (List (String × PyVal))) = _
    rw [hd, listFold_cons hg1,
      show dictInsert [] n1 (PyVal.list vs1) = [] ++ [(n1, PyVal.list vs1)] from
        dictInsert_fresh _ rfl,
      listFold_cons hg2,
      show dictInsert ([] ++ [(n1, PyVal.list vs1)]) n2 (PyVal.list vs2) =
          ([] ++ [(n1, PyVal.list vs1)]) ++ [(n2, PyVal.list vs2)] from
        dictInsert_fresh _ (by simp [hne]),
      htab]
    show tableFold ([] ++ [(n1, PyVal.list vs1)] ++ [(n2, PyVal.list vs2)]) [t] = _
    rw [tableFold_cons_foreign ht1 ht2 ht3 htf hds,
      show dictInsert (([] ++ [(n1, PyVal.list vs1)]) ++ [(n2, PyVal.list vs2)])
          t.name (PyVal.list (ds.map PyVal.dict)) =
          (([] ++ [(n1, PyVal.list vs1)]) ++ [(n2, PyVal.list vs2)]) ++
            [(t.name, PyVal.list (ds.map PyVal.dict))] from
        dictInsert_fresh _ (by simp [htn1, htn2])]
    show Except.ok
      (([] ++ [(n1, PyVal.list vs1)] ++ [(n2, PyVal.list vs2)]) ++
        [(t.name, PyVal.list (ds.map PyVal.dict))]) = _
    simp
  obtain ⟨d0, ds2, rfl⟩ : ∃ d0 ds2, ds = d0 :: ds2 := by
    cases ds with
    | nil => simp at hlen
    | cons d0 ds2 => exact ⟨d0, ds2, rfl⟩
  unfold generate_report
  rw [hsnap]
  have htab1 : isTabular (PyVal.list (PyVal.dict d0 :: ds2.map PyVal.dict)) = true := rfl
  show Except.ok (reportOf
    [(n1, PyVal.list vs1), (n2, PyVal.list vs2),
      (t.name, PyVal.list ((d0 :: ds2).map PyVal.dict))]) = _
  unfold reportOf
  have hE : List.filter (fun p => !isTabular p.2)
      [(n1, PyVal.list vs1), (n2, PyVal.list vs2),
        (t.name, PyVal.list ((d0 :: ds2).map PyVal.dict))] =
      [(n1, PyVal.list vs1), (n2, PyVal.list vs2)] := by
    simp [List.filter_cons, hv1, hv2, htab1]
  have hT : List.filter (fun p => isTabular p.2)
      [(n1, PyVal.list vs1), (n2, PyVal.list vs2),
        (t.name, PyVal.list ((d0 :: ds2).map PyVal.dict))] =
      [(t.name, PyVal.list ((d0 :: ds2).map PyVal.dict))] := by
    simp [List.filter_cons, hv1, hv2, htab1]
  rw [hE, hT]
  have hlen15 : (PyVal.dict d0 :: ds2.map PyVal.dict).length = 15 := by
    simpa using hlen
  simp only [List.map_cons, List.map_nil, sectionOf, sectionRows, hlen15]
  rfl

theorem claimC6_witness :
    (stateC6.kv = [] ∧ stateC6.tables = [tableC6] ∧
      distinctNames stateC6.rows = ["xs", "ys"] ∧ ¬("xs" = "ys") ∧
      list_get stateC6 "xs" = .ok [.int 1] ∧
      list_get stateC6 "ys" = .ok [.int 2] ∧
      rowsDicts tableC6.columns tableC6.cells =
        some ((List.range 15).map (fun k => [("c", PyVal.int k)])) ∧
      ((List.range 15).map (fun k => [("c", PyVal.int k)])).length = 15) ∧
    generate_report stateC6 = .ok
      { easydbEntries := [("xs", .list [.int 1]), ("ys", .list [.int 2])]
        tableSections := [{
          name := tableC6.name
          headerCount := 15
          shown := (((List.range 15).map
            (fun k => [("c", PyVal.int k)])).map PyVal.dict).take 10
          truncNotice := some 15 }] } :=
  ⟨⟨rfl, rfl, rfl, by decide, rfl, rfl, rfl, by decide⟩,
    claimC6 stateC6 tableC6 "xs" "ys" [.int 1] [.int 2]
      ((List.range 15).map (fun k => [("c", PyVal.int k)]))
      rfl rfl rfl (by decide) rfl rfl (by decide) (by decide) (by decide) rfl
      rfl (by decide) (by decide) (by decide) rfl rfl⟩

theorem claimC6_counterexample :
    distinctNames stateC6bad.rows = ["xs", "ys"] ∧
    stateC6bad.kv = [] ∧ stateC6bad.tables = [tableC6] ∧
    tableC6.cells.length = 15 ∧
    (generate_report stateC6bad).map Report.easydbEntries =
      .ok [("ys", .list [.int 2])] ∧
    (generate_report stateC6bad).map
        (fun r => r.tableSections.map TableSection.name) =
      .ok ["xs", "t"] :=
  ⟨rfl, rfl, rfl, by decide, rfl, rfl⟩

/-- C7: the reserved names `all_data` and `html_report` resolve to the
computed snapshot and report even when both a stored list and a stored
scalar of the same name exist. -/
theorem claimC7 (σ : DBState)
    (h1 : is_list σ "all_data" = true) (h2 : is_list σ "html_report" = true)
    (h3 : σ.kv.any (fun p => p.1 = "all_data") = true)
    (h4 : σ.kv.any (fun p => p.1 = "html_report") = true) :
    getattrModel σ "all_data" = (get_all_data σ).map AttrRead.allData ∧
    getattrModel σ "html_report" = (generate_report σ).map AttrRead.htmlReport :=
  ⟨getattrModel_all_data σ, getattrModel_html_report σ⟩

theorem claimC7_witness :
    (is_list stateC7 "all_data" = true ∧ is_list stateC7 "html_report" = true ∧
      stateC7.kv.any (fun p => p.1 = "all_data") = true ∧
      stateC7.kv.any (fun p => p.1 = "html_report") = true) ∧
    (getattrModel stateC7 "all_data" =
        (get_all_data stateC7).map AttrRead.allData ∧
      getattrModel stateC7 "html_report" =
        (generate_report stateC7).map AttrRead.htmlReport) :=
  ⟨⟨by decide, by decide, by decide, by decide⟩,
    claimC7 stateC7 (by decide) (by decide) (by decide) (by decide)⟩

/-- C8: `list_set` raises `IndexError` exactly when `index ≥ count` (on a
well-formed store), raises the distinct "Failed to update list item" error
whenever `index < count` but no row sits at that exact index — a hole, a
state only a non-well-formed store can exhibit at a non-negative index —
and whenever a row exists at the index it succeeds, replacing exactly that
row's value. -/
theorem claimC8 (σ : DBState) (name : String) (i : Int) (item : PyVal) :
    (WF σ →
      (list_set σ name i item = .error .indexError ↔
        (listCount σ name : Int) ≤ i)) ∧
    (i < (listCount σ name : Int) →
      σ.rows.all (fun r => ¬(r.list_name = name ∧ r.item_index = i)) = true →
      list_set σ name i item = .error .updateFailed) ∧
    (σ.rows.any (fun r => r.list_name = name ∧ r.item_index = i) = true →
      list_set σ name i item = .ok { σ with rows := σ.rows.map (fun r =>
        if r.list_name = name ∧ r.item_index = i then
          { r with item_value := dumps item }
        else r) }) ∧
    (WF σ → ∀ j : Nat, j < listCount σ name → i = ((j : Nat) : Int) →
      ∀ s, list_get σ name = .ok s →
        ∃ σ2, list_set σ name i item = .ok σ2 ∧
          list_get σ2 name = .ok (s.set j item)) := by
  refine ⟨?_, ?_, ?_, ?_⟩
  · intro hWF
    constructor
    · intro herr
      by_cases hany : σ.rows.any
          (fun r => r.list_name = name ∧ r.item_index = i) = true
      · rw [list_set_hit item hany] at herr
        cases herr
      · by_cases hge : (listCount σ name : Int) ≤ i
        · exact hge
        · unfold list_set at herr
          rw [if_neg hany, if_neg hge] at herr
          injection herr with herr2
          cases herr2
    · intro hge
      unfold list_set
      rw [if_neg, if_pos hge]
      intro hany
      obtain ⟨j, hj, hlt⟩ := row_exists_bound hWF hany
      omega
  · intro hlt hall
    unfold list_set
    rw [if_neg, if_neg (by omega)]
    intro hany
    simp only [List.any_eq_true, decide_eq_true_eq] at hany
    obtain ⟨r, hr, hcon⟩ := hany
    have h2 := List.all_eq_true.mp hall r hr
    simp only [decide_eq_true_eq] at h2
    exact h2 hcon
  · intro hany
    exact list_set_hit item hany
  · intro hWF j hj hi s hs
    subst hi
    obtain ⟨σ2, h1, -, h3, -⟩ := list_set_effect hWF hs hj item
    exact ⟨σ2, h1, h3⟩

theorem claimC8_witness :
    (WF stateW ∧ (listCount stateW "l" : Int) ≤ 5 ∧
      list_set stateW "l" 5 (.int 9) = .error .indexError) ∧
    ((1 : Int) < (listCount stateH "l" : Int) ∧
      stateH.rows.all
        (fun r => ¬(r.list_name = "l" ∧ r.item_index = (1 : Int))) = true ∧
      list_set stateH "l" 1 (.int 9) = .error .updateFailed) ∧
    (stateW.rows.any
        (fun r => r.list_name = "l" ∧ r.item_index = (0 : Int)) = true ∧
      list_set stateW "l" 0 (.int 9) = .ok { stateW with
        rows := stateW.rows.map (fun r =>
          if r.list_name = "l" ∧ r.item_index = (0 : Int) then
            { r with item_value := dumps (.int 9) }
          else r) }) ∧
    (WF stateW ∧ (0 : Nat) < listCount stateW "l" ∧
      list_get stateW "l" = .ok [.int 1, .int 2] ∧
      ∃ σ2, list_set stateW "l" ((0 : Nat) : Int) (.int 9) = .ok σ2 ∧
        list_get σ2 "l" = .ok ([PyVal.int 1, PyVal.int 2].set 0 (.int 9))) :=
  ⟨⟨by decide, by decide,
      ((claimC8 stateW "l" 5 (.int 9)).1 (by decide)).mpr (by decide)⟩,
    ⟨by decide, by decide,
      (claimC8 stateH "l" 1 (.int 9)).2.1 (by decide) (by decide)⟩,
    ⟨by decide, (claimC8 stateW "l" 0 (.int 9)).2.2.1 (by decide)⟩,
    ⟨by decide, by decide, rfl,
      (claimC8 stateW "l" 0 (.int 9)).2.2.2 (by decide) 0 (by decide) rfl
        [.int 1, .int 2] rfl⟩⟩

/-- C9 (corrected): writing a non-list value to an unreserved name only
upserts the scalar and leaves the list rows unchanged, so a name that is a
list still reads back as a list view — the written value is unreachable via
the attribute path.  The restriction to unreserved, non-internal names is
necessary: `db.all_data = v` stores the scalar, but reading `all_data`
returns the snapshot, not a list view (see the counterexample). -/
theorem claimC9 (σ : DBState) (n : String) (v : PyVal)
    (h1 : startsUnderscore n = false) (h2 : ¬(n = "db_name"))
    (h3 : ¬(n = "all_data")) (h4 : ¬(n = "html_report"))
    (h5 : ∀ xs, ¬(v = .list xs)) :
    (setattrModel σ n v).rows = σ.rows ∧
    (is_list σ n = true →
      getattrModel (setattrModel σ n v) n = .ok (.listView n)) := by
  have hset : setattrModel σ n v = set_key_value σ n v :=
    setattrModel_scalar h1 h2 h5
  constructor
  · rw [hset]
    rfl
  · intro hl
    rw [hset]
    exact getattrModel_list h3 h4 (by rw [is_list_rows_eq rfl n]; exact hl)

theorem claimC9_witness :
    (startsUnderscore "l" = false ∧ ¬("l" = "db_name") ∧ ¬("l" = "all_data") ∧
      ¬("l" = "html_report") ∧ (∀ xs, ¬(PyVal.int 5 = PyVal.list xs))) ∧
    ((setattrModel stateW "l" (.int 5)).rows = stateW.rows ∧
      (is_list stateW "l" = true →
        getattrModel (setattrModel stateW "l" (.int 5)) "l" =
          .ok (.listView "l"))) :=
  ⟨⟨by decide, by decide, by decide, by decide, fun xs h => by cases h⟩,
    claimC9 stateW "l" (.int 5) (by decide) (by decide) (by decide) (by decide)
      (fun xs h => by cases h)⟩

theorem claimC9_counterexample :
    is_list (setattrModel stateC9 "all_data" (.int 5)) "all_data" = true ∧
    (getattrModel (setattrModel stateC9 "all_data" (.int 5)) "all_data").map
        attrTag = .ok 0 ∧
    attrTag (.listView "all_data") = 2 :=
  ⟨by decide, rfl, rfl⟩

/-- C10 (corrected): assigning `[]` to an unreserved name deletes every row
of that list and inserts none, so the list no longer exists and — with no
scalar stored under the name — the attribute read raises `AttributeError`.
For the reserved name `all_data` the read instead returns the snapshot (see
the counterexample). -/
theorem claimC10 (σ : DBState) (n : String)
    (h1 : startsUnderscore n = false) (h2 : ¬(n = "db_name"))
    (h3 : ¬(n = "all_data")) (h4 : ¬(n = "html_report"))
    (h5 : ∀ p ∈ σ.kv, ¬(p.1 = n)) :
    (setattrModel σ n (.list [])).rows.filter (fun r => r.list_name = n) = [] ∧
    is_list (setattrModel σ n (.list [])) n = false ∧
    getattrModel (setattrModel σ n (.list [])) n = .error .attributeError := by
  rw [setattrModel_list [] h1 h2]
  refine ⟨?_, is_list_set_list_nil σ n, ?_⟩
  · exact List.length_eq_zero.mp
      (by simpa [listCount] using listCount_set_list_self σ n [])
  · exact getattrModel_absent h3 h4 (is_list_set_list_nil σ n)
      (get_key_value_absent (fun p hp => h5 p hp))

theorem claimC10_witness :
    (startsUnderscore "l" = false ∧ ¬("l" = "db_name") ∧ ¬("l" = "all_data") ∧
      ¬("l" = "html_report") ∧ (∀ p ∈ stateW.kv, ¬(p.1 = "l"))) ∧
    ((setattrModel stateW "l" (.list [])).rows.filter
        (fun r => r.list_name = "l") = [] ∧
      is_list (setattrModel stateW "l" (.list [])) "l" = false ∧
      getattrModel (setattrModel stateW "l" (.list [])) "l" =
        .error .attributeError) :=
  ⟨⟨by decide, by decide, by decide, by decide, by decide⟩,
    claimC10 stateW "l" (by decide) (by decide) (by decide) (by decide)
      (by decide)⟩

theorem claimC10_counterexample :
    is_list (setattrModel stateC9 "all_data" (.list [])) "all_data" = false ∧
    (getattrModel (setattrModel stateC9 "all_data" (.list [])) "all_data").map
        attrTag = .ok 0 :=
  ⟨by decide, rfl⟩

end EasyDB
